import Mathlib

/-!
Verification of the `cf_extractor` two-pass semantic-extraction pipeline
(`src/extractors/python/cf_extractor/`): a shallow embedding of the data
model (`schema.py`), the Pass-1 definition collector (`extractor.py`), the
Pass-2 reference collector (`jedi_resolver.py`) and the project pipeline
(`main.py`), together with theorems settling the frozen claims about the
natural-language specification.
-/

namespace ContextFootprint

/-! ## Symbol model (schema.py)

Pydantic models from `cf_extractor/schema.py`, embedded as Lean structures.
Field names and order follow the source; enum members serialize as their
PascalCase value strings. -/

inductive SymbolKind where
  | Function
  | Variable
  | Type
deriving DecidableEq, Repr

inductive Visibility where
  | Public
  | Private
  | Protected
  | Internal
deriving DecidableEq, Repr

inductive Mutability where
  | Const
  | Immutable
  | Mutable
deriving DecidableEq, Repr

inductive VariableScope where
  | Global
  | Field
deriving DecidableEq, Repr

inductive ReferenceRole where
  | Call
  | Read
  | Write
  | Decorate
deriving DecidableEq, Repr

inductive TypeKind where
  | Class
  | Interface
  | Struct
  | Enum
  | TypeAlias
  | Union
  | Intersection
  | TypeVar
deriving DecidableEq, Repr

structure SourceLocation where
  file_path : String
  line : Nat
  column : Nat
deriving DecidableEq, Repr

structure SourceSpan where
  start_line : Nat
  start_column : Nat
  end_line : Nat
  end_column : Nat
deriving DecidableEq, Repr

/-- `schema.Parameter`.  `extractor.py` also passes an `is_high_freedom_type`
keyword when constructing parameters, but `schema.Parameter` declares no such
field and pydantic's default config silently ignores unknown init keywords,
so the model carries exactly these four fields. -/
structure Parameter where
  name : String
  param_type : Option String := none
  has_default : Bool := false
  is_variadic : Bool := false
deriving DecidableEq, Repr

structure TypeParam where
  name : String
  bounds : List String := []
deriving DecidableEq, Repr

/-- `schema.FunctionModifiers`.  Note: there is no
`use_signature_only_for_size` field in `schema.py`; `extractor.py` passes
that keyword when constructing `FunctionModifiers`, but pydantic's default
`extra` policy ignores unknown init keywords, so the flag never reaches the
model (relevant to the prefer-signature-for-sizing claim). -/
structure FunctionModifiers where
  is_async : Bool := false
  is_generator : Bool := false
  is_static : Bool := false
  is_abstract : Bool := false
  is_constructor : Bool := false
  is_di_wired : Bool := false
  visibility : Visibility := .Public
deriving DecidableEq, Repr

structure FunctionDetails where
  parameters : List Parameter := []
  return_types : List String := []
  type_params : List TypeParam := []
  modifiers : FunctionModifiers := {}
deriving DecidableEq, Repr

structure VariableDetails where
  var_type : Option String := none
  mutability : Mutability := .Mutable
  scope : VariableScope := .Global
  visibility : Visibility := .Public
deriving DecidableEq, Repr

structure TypeField where
  name : String
  field_type : Option String := none
  mutability : Mutability := .Mutable
  visibility : Visibility := .Public
  symbol_id : String
deriving DecidableEq, Repr

structure TypeDetails where
  kind : TypeKind := .Class
  is_abstract : Bool := false
  is_final : Bool := false
  visibility : Visibility := .Public
  type_params : List TypeParam := []
  fields : List TypeField := []
  inherits : List String := []
  implements : List String := []
deriving DecidableEq, Repr

/-- The `details` union of `schema.SymbolDefinition`
(`FunctionDetails | VariableDetails | TypeDetails`). -/
inductive SymbolDetails where
  | function (d : FunctionDetails)
  | var (d : VariableDetails)
  | type (d : TypeDetails)
deriving DecidableEq, Repr

structure SymbolDefinition where
  symbol_id : String
  kind : SymbolKind
  name : String
  display_name : String
  location : SourceLocation
  span : SourceSpan
  enclosing_symbol : Option String := none
  is_external : Bool := false
  documentation : List String := []
  details : SymbolDetails
deriving DecidableEq, Repr

structure SymbolReference where
  target_symbol : Option String := none
  location : SourceLocation
  enclosing_symbol : String
  role : ReferenceRole
  receiver : Option String := none
  method_name : Option String := none
  assigned_to : Option String := none
deriving DecidableEq, Repr

structure DocumentSemantics where
  relative_path : String
  language : String := "python"
  definitions : List SymbolDefinition := []
  references : List SymbolReference := []
deriving DecidableEq, Repr

structure SemanticData where
  project_root : String
  documents : List DocumentSemantics := []
  external_symbols : List SymbolDefinition := []
deriving DecidableEq, Repr

/-! ## Serialization contract (schema.py)

The JSON document produced by `SemanticData.model_dump_json`: pydantic
`model_dump(mode="json")` for the plain models, and
`SymbolDefinition._serialize_for_rust`, which emits `details` as a Rust
externally-tagged single-key object. -/

inductive Json where
  | null
  | bool (b : Bool)
  | str (s : String)
  | num (n : Nat)
  | arr (items : List Json)
  | obj (fields : List (String × Json))

def optStrJson : Option String → Json
  | none => .null
  | some s => .str s

def symbolKindJson : SymbolKind → Json
  | .Function => .str "Function"
  | .Variable => .str "Variable"
  | .Type => .str "Type"

def visibilityJson : Visibility → Json
  | .Public => .str "Public"
  | .Private => .str "Private"
  | .Protected => .str "Protected"
  | .Internal => .str "Internal"

def mutabilityJson : Mutability → Json
  | .Const => .str "Const"
  | .Immutable => .str "Immutable"
  | .Mutable => .str "Mutable"

def variableScopeJson : VariableScope → Json
  | .Global => .str "Global"
  | .Field => .str "Field"

def referenceRoleJson : ReferenceRole → Json
  | .Call => .str "Call"
  | .Read => .str "Read"
  | .Write => .str "Write"
  | .Decorate => .str "Decorate"

def typeKindJson : TypeKind → Json
  | .Class => .str "Class"
  | .Interface => .str "Interface"
  | .Struct => .str "Struct"
  | .Enum => .str "Enum"
  | .TypeAlias => .str "TypeAlias"
  | .Union => .str "Union"
  | .Intersection => .str "Intersection"
  | .TypeVar => .str "TypeVar"

def sourceLocationJson (l : SourceLocation) : Json :=
  .obj [("file_path", .str l.file_path), ("line", .num l.line), ("column", .num l.column)]

def sourceSpanJson (s : SourceSpan) : Json :=
  .obj [("start_line", .num s.start_line), ("start_column", .num s.start_column),
        ("end_line", .num s.end_line), ("end_column", .num s.end_column)]

def parameterJson (p : Parameter) : Json :=
  .obj [("name", .str p.name), ("param_type", optStrJson p.param_type),
        ("has_default", .bool p.has_default), ("is_variadic", .bool p.is_variadic)]

def typeParamJson (t : TypeParam) : Json :=
  .obj [("name", .str t.name), ("bounds", .arr (t.bounds.map .str))]

def functionModifiersJson (m : FunctionModifiers) : Json :=
  .obj [("is_async", .bool m.is_async), ("is_generator", .bool m.is_generator),
        ("is_static", .bool m.is_static), ("is_abstract", .bool m.is_abstract),
        ("is_constructor", .bool m.is_constructor), ("is_di_wired", .bool m.is_di_wired),
        ("visibility", visibilityJson m.visibility)]

def functionDetailsJson (d : FunctionDetails) : Json :=
  .obj [("parameters", .arr (d.parameters.map parameterJson)),
        ("return_types", .arr (d.return_types.map .str)),
        ("type_params", .arr (d.type_params.map typeParamJson)),
        ("modifiers", functionModifiersJson d.modifiers)]

def variableDetailsJson (d : VariableDetails) : Json :=
  .obj [("var_type", optStrJson d.var_type), ("mutability", mutabilityJson d.mutability),
        ("scope", variableScopeJson d.scope), ("visibility", visibilityJson d.visibility)]

def typeFieldJson (f : TypeField) : Json :=
  .obj [("name", .str f.name), ("field_type", optStrJson f.field_type),
        ("mutability", mutabilityJson f.mutability), ("visibility", visibilityJson f.visibility),
        ("symbol_id", .str f.symbol_id)]

def typeDetailsJson (d : TypeDetails) : Json :=
  .obj [("kind", typeKindJson d.kind), ("is_abstract", .bool d.is_abstract),
        ("is_final", .bool d.is_final), ("visibility", visibilityJson d.visibility),
        ("type_params", .arr (d.type_params.map typeParamJson)),
        ("fields", .arr (d.fields.map typeFieldJson)),
        ("inherits", .arr (d.inherits.map .str)),
        ("implements", .arr (d.implements.map .str))]

/-- `SymbolDefinition._serialize_for_rust`: `details` is wrapped as a
single-key object whose one key is the literal kind name of the variant. -/
def symbolDetailsJson : SymbolDetails → Json
  | .function d => .obj [("Function", functionDetailsJson d)]
  | .var d => .obj [("Variable", variableDetailsJson d)]
  | .type d => .obj [("Type", typeDetailsJson d)]

def symbolDefinitionJson (d : SymbolDefinition) : Json :=
  .obj [("symbol_id", .str d.symbol_id), ("kind", symbolKindJson d.kind),
        ("name", .str d.name), ("display_name", .str d.display_name),
        ("location", sourceLocationJson d.location), ("span", sourceSpanJson d.span),
        ("enclosing_symbol", optStrJson d.enclosing_symbol),
        ("is_external", .bool d.is_external),
        ("documentation", .arr (d.documentation.map .str)),
        ("details", symbolDetailsJson d.details)]

def symbolReferenceJson (r : SymbolReference) : Json :=
  .obj [("target_symbol", optStrJson r.target_symbol),
        ("location", sourceLocationJson r.location),
        ("enclosing_symbol", .str r.enclosing_symbol),
        ("role", referenceRoleJson r.role),
        ("receiver", optStrJson r.receiver),
        ("method_name", optStrJson r.method_name),
        ("assigned_to", optStrJson r.assigned_to)]

def documentSemanticsJson (d : DocumentSemantics) : Json :=
  .obj [("relative_path", .str d.relative_path), ("language", .str d.language),
        ("definitions", .arr (d.definitions.map symbolDefinitionJson)),
        ("references", .arr (d.references.map symbolReferenceJson))]

def semanticDataJson (d : SemanticData) : Json :=
  .obj [("project_root", .str d.project_root),
        ("documents", .arr (d.documents.map documentSemanticsJson)),
        ("external_symbols", .arr (d.external_symbols.map symbolDefinitionJson))]

/-! ## Deserializer

Modelled from the spec: the statically typed consumer (the Rust
`GraphBuilder` reading the schema of `src/domain/semantic.rs`, which is not
part of this source tree) deserializes the structured output back into the
symbol model, reading the single-key tagged wrapper of `details` directly
into a sum type without an auxiliary discriminant field (spec section 4.4). -/

def deserList (g : Json → Option α) : List Json → Option (List α)
  | [] => some []
  | j :: js =>
    match g j with
    | none => none
    | some a =>
      match deserList g js with
      | none => none
      | some as => some (a :: as)

def strFromJson : Json → Option String
  | .str s => some s
  | _ => none

def optStrFromJson : Json → Option (Option String)
  | .null => some none
  | .str s => some (some s)
  | _ => none

def symbolKindFromJson : Json → Option SymbolKind
  | .str "Function" => some .Function
  | .str "Variable" => some .Variable
  | .str "Type" => some .Type
  | _ => none

def visibilityFromJson : Json → Option Visibility
  | .str "Public" => some .Public
  | .str "Private" => some .Private
  | .str "Protected" => some .Protected
  | .str "Internal" => some .Internal
  | _ => none

def mutabilityFromJson : Json → Option Mutability
  | .str "Const" => some .Const
  | .str "Immutable" => some .Immutable
  | .str "Mutable" => some .Mutable
  | _ => none

def variableScopeFromJson : Json → Option VariableScope
  | .str "Global" => some .Global
  | .str "Field" => some .Field
  | _ => none

def referenceRoleFromJson : Json → Option ReferenceRole
  | .str "Call" => some .Call
  | .str "Read" => some .Read
  | .str "Write" => some .Write
  | .str "Decorate" => some .Decorate
  | _ => none

def typeKindFromJson : Json → Option TypeKind
  | .str "Class" => some .Class
  | .str "Interface" => some .Interface
  | .str "Struct" => some .Struct
  | .str "Enum" => some .Enum
  | .str "TypeAlias" => some .TypeAlias
  | .str "Union" => some .Union
  | .str "Intersection" => some .Intersection
  | .str "TypeVar" => some .TypeVar
  | _ => none

def sourceLocationFromJson : Json → Option SourceLocation
  | .obj [("file_path", .str f), ("line", .num l), ("column", .num c)] => some ⟨f, l, c⟩
  | _ => none

def sourceSpanFromJson : Json → Option SourceSpan
  | .obj [("start_line", .num a), ("start_column", .num b),
          ("end_line", .num c), ("end_column", .num d)] => some ⟨a, b, c, d⟩
  | _ => none

def parameterFromJson : Json → Option Parameter
  | .obj [("name", .str n), ("param_type", pt), ("has_default", .bool h),
          ("is_variadic", .bool v)] =>
    (optStrFromJson pt).map fun t => ⟨n, t, h, v⟩
  | _ => none

def typeParamFromJson : Json → Option TypeParam
  | .obj [("name", .str n), ("bounds", .arr bs)] =>
    (deserList strFromJson bs).map fun l => ⟨n, l⟩
  | _ => none

def functionModifiersFromJson : Json → Option FunctionModifiers
  | .obj [("is_async", .bool a), ("is_generator", .bool g), ("is_static", .bool s),
          ("is_abstract", .bool ab), ("is_constructor", .bool c), ("is_di_wired", .bool w),
          ("visibility", v)] =>
    (visibilityFromJson v).map fun vv => ⟨a, g, s, ab, c, w, vv⟩
  | _ => none

def functionDetailsFromJson : Json → Option FunctionDetails
  | .obj [("parameters", .arr ps), ("return_types", .arr rs),
          ("type_params", .arr ts), ("modifiers", m)] =>
    (deserList parameterFromJson ps).bind fun pl =>
    (deserList strFromJson rs).bind fun rl =>
    (deserList typeParamFromJson ts).bind fun tl =>
    (functionModifiersFromJson m).bind fun mm =>
    some ⟨pl, rl, tl, mm⟩
  | _ => none

def variableDetailsFromJson : Json → Option VariableDetails
  | .obj [("var_type", vt), ("mutability", m), ("scope", s), ("visibility", v)] =>
    (optStrFromJson vt).bind fun t =>
    (mutabilityFromJson m).bind fun mm =>
    (variableScopeFromJson s).bind fun ss =>
    (visibilityFromJson v).bind fun vv =>
    some ⟨t, mm, ss, vv⟩
  | _ => none

def typeFieldFromJson : Json → Option TypeField
  | .obj [("name", .str n), ("field_type", ft), ("mutability", m),
          ("visibility", v), ("symbol_id", .str sid)] =>
    (optStrFromJson ft).bind fun t =>
    (mutabilityFromJson m).bind fun mm =>
    (visibilityFromJson v).bind fun vv =>
    some ⟨n, t, mm, vv, sid⟩
  | _ => none

def typeDetailsFromJson : Json → Option TypeDetails
  | .obj [("kind", k), ("is_abstract", .bool ab), ("is_final", .bool fin),
          ("visibility", v), ("type_params", .arr ts), ("fields", .arr fs),
          ("inherits", .arr ins), ("implements", .arr ims)] =>
    (typeKindFromJson k).bind fun kk =>
    (visibilityFromJson v).bind fun vv =>
    (deserList typeParamFromJson ts).bind fun tl =>
    (deserList typeFieldFromJson fs).bind fun fl =>
    (deserList strFromJson ins).bind fun il =>
    (deserList strFromJson ims).bind fun ml =>
    some ⟨kk, ab, fin, vv, tl, fl, il, ml⟩
  | _ => none

/-- The tagged-union read of the `details` wrapper: the single key selects
the variant directly. -/
def symbolDetailsFromJson : Json → Option SymbolDetails
  | .obj [("Function", j)] => (functionDetailsFromJson j).map .function
  | .obj [("Variable", j)] => (variableDetailsFromJson j).map .var
  | .obj [("Type", j)] => (typeDetailsFromJson j).map .type
  | _ => none

def symbolDefinitionFromJson : Json → Option SymbolDefinition
  | .obj [("symbol_id", .str sid), ("kind", k), ("name", .str n),
          ("display_name", .str dn), ("location", loc), ("span", sp),
          ("enclosing_symbol", enc), ("is_external", .bool ext),
          ("documentation", .arr docs), ("details", det)] =>
    (symbolKindFromJson k).bind fun kk =>
    (sourceLocationFromJson loc).bind fun ll =>
    (sourceSpanFromJson sp).bind fun ss =>
    (optStrFromJson enc).bind fun ee =>
    (deserList strFromJson docs).bind fun dl =>
    (symbolDetailsFromJson det).bind fun dd =>
    some ⟨sid, kk, n, dn, ll, ss, ee, ext, dl, dd⟩
  | _ => none

def symbolReferenceFromJson : Json → Option SymbolReference
  | .obj [("target_symbol", ts), ("location", loc), ("enclosing_symbol", .str enc),
          ("role", ro), ("receiver", rc), ("method_name", mn), ("assigned_to", at_)] =>
    (optStrFromJson ts).bind fun t =>
    (sourceLocationFromJson loc).bind fun l =>
    (referenceRoleFromJson ro).bind fun r =>
    (optStrFromJson rc).bind fun rcv =>
    (optStrFromJson mn).bind fun m =>
    (optStrFromJson at_).bind fun a =>
    some ⟨t, l, enc, r, rcv, m, a⟩
  | _ => none

def documentSemanticsFromJson : Json → Option DocumentSemantics
  | .obj [("relative_path", .str rp), ("language", .str lang),
          ("definitions", .arr ds), ("references", .arr rs)] =>
    (deserList symbolDefinitionFromJson ds).bind fun dl =>
    (deserList symbolReferenceFromJson rs).bind fun rl =>
    some ⟨rp, lang, dl, rl⟩
  | _ => none

def semanticDataFromJson : Json → Option SemanticData
  | .obj [("project_root", .str root), ("documents", .arr ds),
          ("external_symbols", .arr es)] =>
    (deserList documentSemanticsFromJson ds).bind fun dl =>
    (deserList symbolDefinitionFromJson es).bind fun el =>
    some ⟨root, dl, el⟩
  | _ => none

/-! ## Python string primitives

Models of the Python `str` methods the collectors use, implemented over
character lists. -/

/-- Python `str.isspace` characters relevant to `strip`. -/
def pyCharIsSpace (c : Char) : Bool :=
  c = ' ' || c = '\t' || c = '\n' || c = '\r' || c = '\x0b' || c = '\x0c'

/-- `str.startswith`. -/
def pyStartsWith (s pre : String) : Bool :=
  pre.data.isPrefixOf s.data

/-- `str.endswith`. -/
def pyEndsWith (s suf : String) : Bool :=
  suf.data.reverse.isPrefixOf s.data.reverse

/-- Remove the last `n` characters (`s[:-n]`). -/
def pyDropRight (s : String) (n : Nat) : String :=
  .mk (s.data.take (s.data.length - n))

/-- Remove the first `n` characters (`s[n:]`). -/
def pyDropLeft (s : String) (n : Nat) : String :=
  .mk (s.data.drop n)

def pyLen (s : String) : Nat :=
  s.data.length

/-- If `pat` is a prefix of `l`, the remainder after it. -/
def stripPre : List Char → List Char → Option (List Char)
  | [], l => Option.some l
  | _ :: _, [] => Option.none
  | p :: ps, c :: cs => if p = c then stripPre ps cs else Option.none

/-- Fuel-driven splitter over characters (the fuel exceeds the length; the
pattern is nonempty at every use site). -/
def pySplitAux (pat : List Char) : Nat → List Char → List Char → List (List Char)
  | 0, acc, _ => [acc.reverse]
  | _ + 1, acc, [] => [acc.reverse]
  | fuel + 1, acc, c :: cs =>
    match stripPre pat (c :: cs) with
    | Option.some rest => acc.reverse :: pySplitAux pat fuel [] rest
    | Option.none => pySplitAux pat fuel (c :: acc) cs

/-- `str.split(pat)` for a nonempty `pat`. -/
def pySplit (s pat : String) : List String :=
  (pySplitAux pat.data (s.data.length + 1) [] s.data).map .mk

/-- `str.replace(pat, rep)` for a nonempty `pat`. -/
def pyReplace (s pat rep : String) : String :=
  String.intercalate rep (pySplit s pat)

/-- `str.strip()`. -/
def pyStrip (s : String) : String :=
  .mk (((s.data.dropWhile pyCharIsSpace).reverse.dropWhile pyCharIsSpace).reverse)

/-- `str.lstrip()`. -/
def pyLStrip (s : String) : String :=
  .mk (s.data.dropWhile pyCharIsSpace)

/-! ## Python AST fragment

The statement/expression fragment of the `ast` module that the two
collectors visit.  Nested lists and options are members of the mutual
group so every traversal is plain structural recursion.  Line numbers are
1-based and columns 0-based, as in the `ast` module. -/

inductive ExprCtx where
  | load
  | store
  | del
deriving DecidableEq, Repr

/-- Position data of an expression node (`lineno`, `col_offset`). -/
structure Pos where
  lineno : Nat
  col : Nat
deriving DecidableEq, Repr

/-- Position data of a statement node
(`lineno`, `col_offset`, `end_lineno`, `end_col_offset`). -/
structure NodeLoc where
  lineno : Nat
  col : Nat
  endLineno : Nat
  endCol : Nat
deriving DecidableEq, Repr

mutual

inductive Expr where
  | name (id : String) (ctx : ExprCtx) (pos : Pos)
  | attr (value : Expr) (attrId : String) (ctx : ExprCtx) (pos : Pos)
  | call (func : Expr) (args : ExprList) (keywords : ExprList) (pos : Pos)
  | constStr (s : String) (pos : Pos)
  | constOther (pos : Pos)
  | subscript (value : Expr) (slice : Expr) (ctx : ExprCtx) (pos : Pos)
  | tupleE (elts : ExprList) (ctx : ExprCtx) (pos : Pos)
  | listE (elts : ExprList) (ctx : ExprCtx) (pos : Pos)
  | yieldE (value : OptExpr) (pos : Pos)
deriving DecidableEq, Repr

inductive OptExpr where
  | none
  | some (e : Expr)
deriving DecidableEq, Repr

inductive ExprList where
  | nil
  | cons (e : Expr) (es : ExprList)
deriving DecidableEq, Repr

/-- `ast.arg`: an argument name with an optional annotation. -/
inductive PyArg where
  | mk (argId : String) ( annotation : OptExpr)
deriving DecidableEq, Repr

inductive PyArgList where
  | nil
  | cons (a : PyArg) (rest : PyArgList)
deriving DecidableEq, Repr

inductive OptPyArg where
  | none
  | some (a : PyArg)
deriving DecidableEq, Repr

/-- `ast.arguments`, fields in the `ast` field order
(`posonlyargs, args, vararg, kwonlyargs, kw_defaults, kwarg, defaults`). -/
inductive PyArguments where
  | mk (posonlyargs : PyArgList) (args : PyArgList) (vararg : OptPyArg)
      (kwonlyargs : PyArgList) (kwDefaults : ExprList) (kwarg : OptPyArg)
      (defaults : ExprList)
deriving DecidableEq, Repr

inductive Stmt where
  /-- `ast.FunctionDef` / `ast.AsyncFunctionDef` (both collectors treat the
  async variant by delegating to the sync visitor). -/
  | functionDef (isAsync : Bool) (fname : String) (args : PyArguments) (body : StmtList)
      (decorators : ExprList) (returns : OptExpr) (loc : NodeLoc)
  /-- `ast.ClassDef`.  `classSrc` carries `ast.get_source_segment(source, node)`,
  the raw source text of the declaration, which `extractor.py` searches for
  the substring `"ABC"`. -/
  | classDef (cname : String) (bases : ExprList) (keywords : ExprList) (body : StmtList)
      (decorators : ExprList) (classSrc : String) (loc : NodeLoc)
  | assign (targets : ExprList) (value : Expr) (loc : NodeLoc)
  | annAssign (target : Expr) ( annotation : Expr) (value : OptExpr) (loc : NodeLoc)
  | ret (value : OptExpr) (loc : NodeLoc)
  | passStmt (loc : NodeLoc)
  | exprStmt (value : Expr) (loc : NodeLoc)
deriving DecidableEq, Repr

inductive StmtList where
  | nil
  | cons (s : Stmt) (rest : StmtList)
deriving DecidableEq, Repr

end

def ExprList.toList : ExprList → List Expr
  | .nil => []
  | .cons e es => e :: es.toList

def OptExpr.toList : OptExpr → List Expr
  | .none => []
  | .some e => [e]

def PyArgList.toList : PyArgList → List PyArg
  | .nil => []
  | .cons a rest => a :: rest.toList

def OptPyArg.toList : OptPyArg → List PyArg
  | .none => []
  | .some a => [a]

def StmtList.toList : StmtList → List Stmt
  | .nil => []
  | .cons s rest => s :: rest.toList

def PyArg.argId : PyArg → String
  | .mk i _ => i

def PyArg.annotation : PyArg → OptExpr
  | .mk _ a => a

def PyArguments.argsL : PyArguments → PyArgList
  | .mk _ a _ _ _ _ _ => a

def PyArguments.posonly : PyArguments → PyArgList
  | .mk p _ _ _ _ _ _ => p

def PyArguments.vararg : PyArguments → OptPyArg
  | .mk _ _ v _ _ _ _ => v

def PyArguments.kwonly : PyArguments → PyArgList
  | .mk _ _ _ k _ _ _ => k

def PyArguments.kwDefaults : PyArguments → ExprList
  | .mk _ _ _ _ d _ _ => d

def PyArguments.kwarg : PyArguments → OptPyArg
  | .mk _ _ _ _ _ k _ => k

def PyArguments.defaults : PyArguments → ExprList
  | .mk _ _ _ _ _ _ d => d

def Expr.pos : Expr → Pos
  | .name _ _ p => p
  | .attr _ _ _ p => p
  | .call _ _ _ p => p
  | .constStr _ p => p
  | .constOther p => p
  | .subscript _ _ _ p => p
  | .tupleE _ _ p => p
  | .listE _ _ p => p
  | .yieldE _ p => p

def Stmt.loc : Stmt → NodeLoc
  | .functionDef _ _ _ _ _ _ l => l
  | .classDef _ _ _ _ _ _ l => l
  | .assign _ _ l => l
  | .annAssign _ _ _ l => l
  | .ret _ l => l
  | .passStmt l => l
  | .exprStmt _ l => l

/-! ## Pass 1 helper functions (extractor.py) -/

/-- `_visibility_from_name`. -/
def visibilityFromName (n : String) : Visibility :=
  if pyStartsWith n "__" && !(pyEndsWith n "__") then .Private
  else if pyStartsWith n "_" then .Private
  else .Public

/-- `_span_from_node` (0-based inclusive start, exclusive end; falsy
`end_col_offset` falls back to the start column). -/
def spanFromNode (loc : NodeLoc) : SourceSpan :=
  { start_line := loc.lineno - 1
    start_column := loc.col
    end_line := loc.endLineno
    end_column := if loc.endCol = 0 then loc.col else loc.endCol }

/-- `_location_from_node`. -/
def locationFromNode (loc : NodeLoc) (filePath : String) : SourceLocation :=
  { file_path := filePath, line := loc.lineno - 1, column := loc.col }

def exprChildren : Expr → List Expr
  | .name .. => []
  | .attr v _ _ _ => [v]
  | .call f args kws _ => f :: (args.toList ++ kws.toList)
  | .constStr .. => []
  | .constOther .. => []
  | .subscript v sl _ _ => [v, sl]
  | .tupleE elts _ _ => elts.toList
  | .listE elts _ _ => elts.toList
  | .yieldE v _ => v.toList

mutual

/-- Node count of an expression tree (fuel bound for the breadth-first
walk). -/
def exprSize : Expr → Nat
  | .name .. => 1
  | .attr v _ _ _ => 1 + exprSize v
  | .call f args kws _ => 1 + exprSize f + exprListSize args + exprListSize kws
  | .constStr .. => 1
  | .constOther .. => 1
  | .subscript v sl _ _ => 1 + exprSize v + exprSize sl
  | .tupleE elts _ _ => 1 + exprListSize elts
  | .listE elts _ _ => 1 + exprListSize elts
  | .yieldE v _ => 1 + optExprSize v

def exprListSize : ExprList → Nat
  | .nil => 0
  | .cons e es => exprSize e + exprListSize es

def optExprSize : OptExpr → Nat
  | .none => 0
  | .some e => exprSize e

end

/-- Breadth-first enumeration of an expression tree (`ast.walk` order),
driven by a fuel bound that exceeds the node count. -/
def walkExprAcc : Nat → List Expr → List Expr → List Expr
  | 0, _, acc => acc
  | _ + 1, [], acc => acc
  | fuel + 1, e :: queue, acc => walkExprAcc fuel (queue ++ exprChildren e) (acc ++ [e])

def walkExpr (e : Expr) : List Expr :=
  walkExprAcc (exprSize e + 1) [e] []

/-- The `Doc("...")` payload of a single walked node, when it is a `Doc`
call whose first argument is a string constant. -/
def docOfNode : Expr → Option String
  | .call f args _ _ =>
    let funcId : Option String :=
      match f with
      | .name i _ _ => Option.some i
      | .attr _ a _ _ => Option.some a
      | _ => Option.none
    if funcId = Option.some "Doc" then
      match args with
      | .cons (.constStr s _) _ => Option.some s
      | _ => Option.none
    else Option.none
  | _ => Option.none

/-- `_extract_doc_from_annotation`: collect `Doc("...")` strings from every
node of the annotation, in `ast.walk` order. -/
def extractDocFromAnnotation (e : Expr) : List String :=
  (walkExpr e).filterMap docOfNode

def docsOfOptAnnot : OptExpr → List String
  | .none => []
  | .some e => extractDocFromAnnotation e

/-- `_has_doc_in_annotations` (parameter order `args + kwonlyargs +
posonlyargs`, then vararg, kwarg, returns). -/
def hasDocInAnnotations (args : PyArguments) (returns : OptExpr) : Bool :=
  ((args.argsL.toList ++ args.kwonly.toList ++ args.posonly.toList).any
      fun a => !(docsOfOptAnnot a.annotation).isEmpty)
  || (args.vararg.toList.any fun a => !(docsOfOptAnnot a.annotation).isEmpty)
  || (args.kwarg.toList.any fun a => !(docsOfOptAnnot a.annotation).isEmpty)
  || !(docsOfOptAnnot returns).isEmpty

/-- `_is_trivial_body`: a single `pass` or a single `return`. -/
def isTrivialBody (body : StmtList) : Bool :=
  match body with
  | .cons (.passStmt _) .nil => true
  | .cons (.ret _ _) .nil => true
  | _ => false

/-- `inspect.cleandoc`, applied by `ast.get_docstring`: strip the first
line's leading whitespace, remove the common margin of the remaining
lines, drop leading and trailing blank lines. -/
def cleanDoc (s : String) : String :=
  let lines := pySplit s "\n"
  match lines with
  | [] => ""
  | first :: rest =>
    let margins := rest.filterMap fun l =>
      let st := pyLStrip l
      if pyLen st = 0 then Option.none else Option.some (pyLen l - pyLen st)
    let l0 := pyLStrip first
    let rest2 :=
      match margins.min? with
      | Option.none => rest
      | Option.some m => rest.map fun l => pyDropLeft l m
    let all := l0 :: rest2
    let all := (all.reverse.dropWhile fun l => pyLen (pyLStrip l) = 0).reverse
    let all := all.dropWhile fun l => pyLen (pyLStrip l) = 0
    String.intercalate "\n" all

/-- `ast.get_docstring`: the first statement's string constant, cleaned. -/
def getBodyDocstring (body : StmtList) : Option String :=
  match body with
  | .cons (.exprStmt (.constStr s _) _) _ => Option.some (cleanDoc s)
  | _ => Option.none

/-- `_get_docstring` for function nodes: own docstring, then the embedded
`Doc()` strings of each parameter annotation (`args + kwonlyargs +
posonlyargs`), vararg, kwarg and return annotation. -/
def getDocstringFunction (body : StmtList) (args : PyArguments) (returns : OptExpr) :
    List String :=
  (match getBodyDocstring body with
   | Option.some d => [d]
   | Option.none => [])
  ++ ((args.argsL.toList ++ args.kwonly.toList ++ args.posonly.toList).flatMap
        fun a => docsOfOptAnnot a.annotation)
  ++ (args.vararg.toList.flatMap fun a => docsOfOptAnnot a.annotation)
  ++ (args.kwarg.toList.flatMap fun a => docsOfOptAnnot a.annotation)
  ++ docsOfOptAnnot returns

/-- `_get_docstring` for class/module nodes: the docstring only. -/
def getDocstringPlain (body : StmtList) : List String :=
  match getBodyDocstring body with
  | Option.some d => [d]
  | Option.none => []

mutual

/-- `ast.unparse` on the expression fragment (used for annotation and base
type references). -/
def unparse : Expr → String
  | .name i _ _ => i
  | .attr v a _ _ => unparse v ++ "." ++ a
  | .call f args _ _ => unparse f ++ "(" ++ unparseList args ++ ")"
  | .constStr s _ => "\x27" ++ s ++ "\x27"
  | .constOther _ => "..."
  | .subscript v sl _ _ => unparse v ++ "[" ++ unparse sl ++ "]"
  | .tupleE elts _ _ => unparseList elts
  | .listE elts _ _ => "[" ++ unparseList elts ++ "]"
  | .yieldE .none _ => "yield"
  | .yieldE (.some e) _ => "yield " ++ unparse e

def unparseList : ExprList → String
  | .nil => ""
  | .cons e .nil => unparse e
  | .cons e es => unparse e ++ ", " ++ unparseList es

end

/-- `_annotation_to_typeref` on a present annotation: a string constant
yields its own value, anything else is unparsed. -/
def annotationToTyperefE (e : Expr) : Option String :=
  match e with
  | .constStr s _ => Option.some s
  | _ => Option.some (unparse e)

def annotationToTyperef : OptExpr → Option String
  | .none => Option.none
  | .some e => annotationToTyperefE e

/-- `_is_high_freedom_type` (computed by the extractor; pydantic drops the
corresponding keyword because `schema.Parameter` has no such field). -/
def isHighFreedomType (paramType : Option String) : Bool :=
  match paramType with
  | Option.none => true
  | Option.some t =>
    let pt := pyStrip t
    let primitives := ["str", "int", "float", "bool", "bytes", "complex", "Any"]
    let collections := ["dict", "list", "set", "tuple", "Dict", "List", "Set", "Tuple",
                        "Mapping", "Sequence", "Iterable"]
    if primitives.contains pt then true
    else
      let baseType := pyStrip ((pySplit pt "[").headD "")
      collections.contains baseType

/-- `_class_span_excluding_methods`: the class span ends just before its
first member (function or nested class), with the end column taken from
the source line preceding that member. -/
def classSpanExcludingMethods (srcLines : List String) (loc : NodeLoc) (body : StmtList) :
    SourceSpan :=
  let firstMemberLine : Option Nat :=
    (body.toList.filterMap fun s =>
      match s with
      | .functionDef _ _ _ _ _ _ l => Option.some (l.lineno - 1)
      | .classDef _ _ _ _ _ _ l => Option.some (l.lineno - 1)
      | _ => Option.none).head?
  match firstMemberLine with
  | Option.some fml =>
    { start_line := loc.lineno - 1
      start_column := loc.col
      end_line := fml
      end_column := if fml > 0 then (srcLines.getD (fml - 1) "").length else 0 }
  | Option.none => spanFromNode loc

mutual

/-- `any(isinstance(n, ast.Yield) for n in ast.walk(node))` over a
statement: yields anywhere in the node, nested definitions included. -/
def yieldsInStmt : Stmt → Bool
  | .functionDef _ _ args body decs rets _ =>
    yieldsInArgs args || yieldsInStmts body || yieldsInExprs decs || yieldsInOptExpr rets
  | .classDef _ bases kws body decs _ _ =>
    yieldsInExprs bases || yieldsInExprs kws || yieldsInStmts body || yieldsInExprs decs
  | .assign tgts v _ => yieldsInExprs tgts || yieldsInExpr v
  | .annAssign t ann v _ => yieldsInExpr t || yieldsInExpr ann || yieldsInOptExpr v
  | .ret v _ => yieldsInOptExpr v
  | .passStmt _ => false
  | .exprStmt v _ => yieldsInExpr v

def yieldsInStmts : StmtList → Bool
  | .nil => false
  | .cons s rest => yieldsInStmt s || yieldsInStmts rest

def yieldsInExpr : Expr → Bool
  | .name .. => false
  | .attr v _ _ _ => yieldsInExpr v
  | .call f args kws _ => yieldsInExpr f || yieldsInExprs args || yieldsInExprs kws
  | .constStr .. => false
  | .constOther .. => false
  | .subscript v sl _ _ => yieldsInExpr v || yieldsInExpr sl
  | .tupleE elts _ _ => yieldsInExprs elts
  | .listE elts _ _ => yieldsInExprs elts
  | .yieldE _ _ => true

def yieldsInExprs : ExprList → Bool
  | .nil => false
  | .cons e es => yieldsInExpr e || yieldsInExprs es

def yieldsInOptExpr : OptExpr → Bool
  | .none => false
  | .some e => yieldsInExpr e

def yieldsInArgs : PyArguments → Bool
  | .mk pos args va kw kwd kwa ds =>
    yieldsInArgList pos || yieldsInArgList args || yieldsInOptArg va ||
    yieldsInArgList kw || yieldsInExprs kwd || yieldsInOptArg kwa || yieldsInExprs ds

def yieldsInArgList : PyArgList → Bool
  | .nil => false
  | .cons a rest => yieldsInOptExpr a.annotation || yieldsInArgList rest

def yieldsInOptArg : OptPyArg → Bool
  | .none => false
  | .some a => yieldsInOptExpr a.annotation

end

/-- The extractor's `use_signature_only_for_size` computation
(`_has_doc_in_annotations(node) and _is_trivial_body(node)`); the value is
then handed to `FunctionModifiers`, which has no such field, so pydantic
silently discards it. -/
def useSignatureOnlyForSize (args : PyArguments) (returns : OptExpr) (body : StmtList) :
    Bool :=
  hasDocInAnnotations args returns && isTrivialBody body

/-- The parameter list of `_visit_function_def`: positional args with the
implicit receiver (`self`/`cls`) skipped; `has_default` from the tail
count of `defaults`; `is_variadic` compares the name with the vararg's. -/
def collectParameters (args : PyArguments) : List Parameter :=
  let argList := args.argsL.toList
  let numArgs := argList.length
  let numDefaults := args.defaults.toList.length
  let defStart := numArgs - numDefaults
  let varargName : Option String :=
    match args.vararg with
    | .some a => Option.some a.argId
    | .none => Option.none
  (argList.enum.filterMap fun p =>
    let i := p.1
    let arg := p.2
    if arg.argId = "self" || arg.argId = "cls" then Option.none
    else
      let paramType := annotationToTyperef arg.annotation
      Option.some
        { name := arg.argId
          param_type := paramType
          has_default := decide (i ≥ defStart)
          is_variadic := varargName = Option.some arg.argId })

/-- The function modifiers of `_visit_function_def`.  The
`use_signature_only_for_size` keyword that the extractor also passes is
absent from `schema.FunctionModifiers` and thus dropped by pydantic. -/
def functionModifiersOf (isAsync : Bool) (fname : String) (wholeStmt : Stmt)
    (decorators : ExprList) : FunctionModifiers :=
  let isAbstract := decorators.toList.any fun d =>
    match d with
    | .name i _ _ => i = "abstractmethod"
    | .attr _ a _ _ => a = "abstractmethod"
    | _ => false
  let isStatic := decorators.toList.any fun d =>
    match d with
    | .name i _ _ => i = "staticmethod"
    | _ => false
  let isClassmethod := decorators.toList.any fun d =>
    match d with
    | .name i _ _ => i = "classmethod"
    | _ => false
  { is_async := isAsync
    is_generator := yieldsInStmt wholeStmt
    is_static := isStatic || isClassmethod
    is_abstract := isAbstract
    is_constructor := fname = "__init__"
    is_di_wired := false
    visibility := visibilityFromName fname }


/-! ## Pass 1: DefinitionCollector (extractor.py)

The class stack is a list with the innermost class first (each entry is the
class name and its `type_id`); `fdepth` is the length of the function
stack, which the collector only ever tests for emptiness.  The state
carries the accumulated definitions and, while a class is open, the
`fields` list of the innermost class (the source mutates that list in
place on the `TypeDetails` object already stored with the class's
definition; here the fields collected over the class body are attached to
the class's definition when its traversal finishes). -/

/-- `str.find(pat) >= 0` for a nonempty pattern. -/
def strContainsSub (s pat : String) : Bool :=
  (pySplit s pat).length > 1

/-- `_current_scope_prefix`: the module id, or the innermost class's type id. -/
def currentScopeId (modId : String) (cstack : List (String × String)) : String :=
  match cstack with
  | [] => modId
  | (_, cid) :: _ => cid

/-- `self._class_stack[-1][1]` as an `enclosing_symbol` value. -/
def stackEnclosing (cstack : List (String × String)) : Option String :=
  match cstack with
  | [] => Option.none
  | (_, cid) :: _ => Option.some (cid)

structure P1State where
  defs : List SymbolDefinition
  fields : List TypeField
deriving Repr

/-- A Variable `SymbolDefinition` as built by `visit_Assign`/`visit_AnnAssign`. -/
def mkVariableDefinition (filePath : String) (symId n : String) (loc : NodeLoc)
    (varType : Option String) (scope : VariableScope) (enclosing : Option String) :
    SymbolDefinition :=
  { symbol_id := symId
    kind := .Variable
    name := n
    display_name := n
    location := locationFromNode loc filePath
    span := spanFromNode loc
    enclosing_symbol := enclosing
    is_external := false
    documentation := []
    details := .var
      { var_type := varType
        mutability := .Mutable
        scope := scope
        visibility := visibilityFromName n } }

/-- One target of `visit_Assign`: module/class-level plain names make a
Variable (plus a class field), `self.x`/`cls.x` targets inside a method
make a deduplicated class field plus a Variable; names inside function
bodies are skipped. -/
def p1AssignTarget (filePath modId : String) (cstack : List (String × String))
    (fdepth : Nat) (loc : NodeLoc) (st : P1State) : Expr → P1State
  | .name tid _ _ =>
    if fdepth > 0 then st
    else
      match cstack with
      | (_, cid) :: _ =>
        let symId := cid ++ "." ++ tid
        let fld : TypeField :=
          { name := tid, field_type := Option.none, mutability := .Mutable
            visibility := visibilityFromName tid, symbol_id := symId }
        let defn := mkVariableDefinition filePath symId tid loc Option.none .Field
          (Option.some cid)
        { defs := st.defs ++ [defn], fields := st.fields ++ [fld] }
      | [] =>
        let symId := modId ++ "." ++ tid
        let defn := mkVariableDefinition filePath symId tid loc Option.none .Global
          Option.none
        { defs := st.defs ++ [defn], fields := st.fields }
  | .attr (.name recv _ _) attrId _ _ =>
    if fdepth > 0 && (recv = "self" || recv = "cls") then
      match cstack with
      | (_, cid) :: _ =>
        if st.fields.any (fun f => f.name = attrId) then st
        else
          let symId := cid ++ "." ++ attrId
          let fld : TypeField :=
            { name := attrId, field_type := Option.none, mutability := .Mutable
              visibility := visibilityFromName attrId, symbol_id := symId }
          let defn := mkVariableDefinition filePath symId attrId loc Option.none .Field
            (Option.some cid)
          { defs := st.defs ++ [defn], fields := st.fields ++ [fld] }
      | [] => st
    else st
  | _ => st

def p1AssignTargets (filePath modId : String) (cstack : List (String × String))
    (fdepth : Nat) (loc : NodeLoc) (st : P1State) : List Expr → P1State
  | [] => st
  | t :: ts =>
    p1AssignTargets filePath modId cstack fdepth loc
      (p1AssignTarget filePath modId cstack fdepth loc st t) ts

/-- `visit_AnnAssign` (single target, annotation provides `var_type`;
class-level fields are appended without deduplication, receiver-attribute
fields with deduplication). -/
def p1AnnAssign (filePath modId : String) (cstack : List (String × String))
    (fdepth : Nat) (loc : NodeLoc) (st : P1State) (target : Expr)
    ( annotation : Expr) : P1State :=
  match target with
  | .name tid _ _ =>
    if fdepth > 0 then st
    else
      let varType := annotationToTyperefE annotation
      match cstack with
      | (_, cid) :: _ =>
        let symId := cid ++ "." ++ tid
        let fld : TypeField :=
          { name := tid, field_type := varType, mutability := .Mutable
            visibility := visibilityFromName tid, symbol_id := symId }
        let defn := mkVariableDefinition filePath symId tid loc varType .Field
          (Option.some cid)
        { defs := st.defs ++ [defn], fields := st.fields ++ [fld] }
      | [] =>
        let symId := modId ++ "." ++ tid
        let defn := mkVariableDefinition filePath symId tid loc varType .Global
          Option.none
        { defs := st.defs ++ [defn], fields := st.fields }
  | .attr (.name recv _ _) attrId _ _ =>
    if fdepth > 0 && (recv = "self" || recv = "cls") then
      match cstack with
      | (_, cid) :: _ =>
        if st.fields.any (fun f => f.name = attrId) then st
        else
          let varType := annotationToTyperefE annotation
          let symId := cid ++ "." ++ attrId
          let fld : TypeField :=
            { name := attrId, field_type := varType, mutability := .Mutable
              visibility := visibilityFromName attrId, symbol_id := symId }
          let defn := mkVariableDefinition filePath symId attrId loc varType .Field
            (Option.some cid)
          { defs := st.defs ++ [defn], fields := st.fields ++ [fld] }
      | [] => st
    else st
  | _ => st

mutual

/-- `DefinitionCollector.visit` on one statement. -/
def p1Stmt (filePath modId : String) (srcLines : List String)
    (cstack : List (String × String)) (fdepth : Nat) (st : P1State) :
    Stmt → P1State
  | .functionDef isAsync fname args body decorators returns loc =>
    let pref := currentScopeId modId cstack
    let funcId := pref ++ "." ++ fname
    let returnTypes0 :=
      match annotationToTyperef returns with
      | Option.some rt => if rt = "" then [] else [rt]
      | Option.none => []
    let isConstructor := fname = "__init__"
    let returnTypes :=
      if isConstructor && returnTypes0.isEmpty then ["None"] else returnTypes0
    let modifiers := functionModifiersOf isAsync fname
      (.functionDef isAsync fname args body decorators returns loc) decorators
    let defn : SymbolDefinition :=
      { symbol_id := funcId
        kind := .Function
        name := fname
        display_name := fname
        location := locationFromNode loc filePath
        span := spanFromNode loc
        enclosing_symbol := stackEnclosing cstack
        is_external := false
        documentation := getDocstringFunction body args returns
        details := .function
          { parameters := collectParameters args
            return_types := returnTypes
            type_params := []
            modifiers := modifiers } }
    p1Stmts filePath modId srcLines cstack (fdepth + 1)
      { defs := st.defs ++ [defn], fields := st.fields } body
  | .classDef cname bases _kws body decorators classSrc loc =>
    let pref := currentScopeId modId cstack
    let typeId := pref ++ "." ++ cname
    let basesList := bases.toList.filterMap fun b =>
      match annotationToTyperefE b with
      | Option.some r => if r = "" then Option.none else Option.some r
      | Option.none => Option.none
    let isAbstract :=
      (decorators.toList.any fun d =>
        match d with
        | .name i _ _ => i = "abstractmethod"
        | _ => false)
      || strContainsSub classSrc "ABC"
      || basesList.contains "Protocol"
    let typeKind :=
      if basesList.contains "Enum" || basesList.any (fun b => pyEndsWith b ".Enum") then
        TypeKind.Enum
      else if basesList.contains "Protocol" || basesList.contains "ABC" || isAbstract then
        TypeKind.Interface
      else TypeKind.Class
    let inner := p1Stmts filePath modId srcLines ((cname, typeId) :: cstack) fdepth
      { defs := [], fields := [] } body
    let typeDetails : TypeDetails :=
      { kind := typeKind
        is_abstract := isAbstract
        is_final := false
        visibility := visibilityFromName cname
        type_params := []
        fields := inner.fields
        inherits := basesList
        implements := [] }
    let defn : SymbolDefinition :=
      { symbol_id := typeId
        kind := .Type
        name := cname
        display_name := cname
        location := locationFromNode loc filePath
        span := classSpanExcludingMethods srcLines loc body
        enclosing_symbol := stackEnclosing cstack
        is_external := false
        documentation := getDocstringPlain body
        details := .type typeDetails }
    { defs := st.defs ++ [defn] ++ inner.defs, fields := st.fields }
  | .assign targets _value loc =>
    p1AssignTargets filePath modId cstack fdepth loc st targets.toList
  | .annAssign target annotation _value loc =>
    p1AnnAssign filePath modId cstack fdepth loc st target annotation
  | .ret _ _ => st
  | .passStmt _ => st
  | .exprStmt _ _ => st

def p1Stmts (filePath modId : String) (srcLines : List String)
    (cstack : List (String × String)) (fdepth : Nat) (st : P1State) :
    StmtList → P1State
  | .nil => st
  | .cons s rest =>
    p1Stmts filePath modId srcLines cstack fdepth
      (p1Stmt filePath modId srcLines cstack fdepth st s) rest

end

/-- `Path(rel_path).with_suffix("").as_posix().replace("/", ".")` for the
`.py` inputs the pipeline feeds in, with the `"."` fallback of
`extract_definitions_from_file`. -/
def moduleIdOfRelPath (relPath : String) : String :=
  let base := if pyEndsWith relPath ".py" then pyDropRight relPath 3 else relPath
  let m := pyReplace base "/" "."
  if m = "." then "__main__" else m

/-- `extract_definitions_from_file`: the ordered definition list of one
parsed file. -/
def extractDefinitions (relPath : String) (srcLines : List String) (body : StmtList) :
    List SymbolDefinition :=
  (p1Stmts relPath (moduleIdOfRelPath relPath) srcLines [] 0
    { defs := [], fields := [] } body).defs


/-! ## Resolution oracle model (jedi)

`jedi.Script.goto` is the Resolution Oracle: a position-to-candidates
function that may raise.  A candidate is a `jedi.api.classes.Name`; the
attribute reads the resolver wraps in `try`/`except` are modeled with
`Except Unit`.  Falsy (`None`, `0`, `""`) attribute values that the source
tests with truthiness are modeled as `Option`. -/

structure SigParam where
  name : String
  description : Option String
deriving Repr

structure JediSignature where
  toStr : String
  params : List SigParam
deriving Repr

structure JediName where
  modulePath : Option String
  line : Option Nat
  column : Option Nat
  name : Option String
  fullName : Except Unit (Option String)
  kindStr : String
  docstring : Except Unit String
  signatures : Except Unit (List JediSignature)
deriving Repr

/-- Truthiness of an optional string (`None` and `""` are falsy). -/
def optStrTruthy : Option String → Bool
  | Option.none => false
  | Option.some s => !(s = "")

/-- `_definition_symbol_id_from_jedi`: match a candidate against the
project table by name, a normalized path suffix/substring check, then
exact defining line or span containment. -/
def defnIdLoop (jPath : Option String) (jName : String) (jLine0 : Option Nat) :
    List SymbolDefinition → Option String
  | [] => Option.none
  | d :: rest =>
    if d.name ≠ jName then defnIdLoop jPath jName jLine0 rest
    else
      let pathOk :=
        match jPath with
        | Option.some p =>
          if d.location.file_path = "" then true
          else
            let normJ := pyReplace p "\\" "/"
            let normD := pyReplace d.location.file_path "\\" "/"
            pyEndsWith normJ normD || strContainsSub normJ normD
        | Option.none => true
      if !pathOk then defnIdLoop jPath jName jLine0 rest
      else
        match jLine0 with
        | Option.some l0 =>
          if d.location.line = l0 then Option.some d.symbol_id
          else if d.span.start_line ≤ l0 && l0 ≤ d.span.end_line then
            Option.some d.symbol_id
          else defnIdLoop jPath jName jLine0 rest
        | Option.none => defnIdLoop jPath jName jLine0 rest

def definitionSymbolIdFromJedi (definitions : List SymbolDefinition)
    (jediDef : Option JediName) : Option String :=
  match jediDef with
  | Option.none => Option.none
  | Option.some j =>
    if definitions.isEmpty then Option.none
    else
      let jLine0 : Option Nat :=
        match j.line with
        | Option.some l => if l = 0 then Option.none else Option.some (l - 1)
        | Option.none => Option.none
      defnIdLoop j.modulePath (j.name.getD "") jLine0 definitions

/-- `_full_name_from_jedi` (the `except` branch falls back to `name`). -/
def fullNameFromJedi (jediDef : Option JediName) : Option String :=
  match jediDef with
  | Option.none => Option.none
  | Option.some j =>
    match j.fullName with
    | .ok v => v
    | .error _ =>
      match j.name with
      | Option.some n => if n = "" then Option.none else Option.some n
      | Option.none => Option.none

/-! ## Pass 2: ReferenceCollector (jedi_resolver.py) -/

structure R2State where
  references : List SymbolReference
  externals : List SymbolDefinition
deriving Repr

structure R2Env where
  relPath : String
  allDefinitions : List SymbolDefinition
  moduleSymbolId : String
  resolve : Nat → Nat → List JediName

/-- `_resolve_at`: a raising `script.goto` is treated as zero candidates. -/
def catchResolve (script : Nat → Nat → Except Unit (List JediName)) (line col : Nat) :
    List JediName :=
  match script line col with
  | .ok ds => ds
  | .error _ => []

/-- `_enclosing_symbol`: the innermost pushed function span containing the
line, else the module's symbol id.  The span stack keeps the most recently
pushed entry first, so head-first search equals the source's reversed
iteration. -/
def enclosingSymbolAt (spans : List (Nat × Nat × String)) (moduleSymbolId : String)
    (line1 : Nat) : String :=
  match spans with
  | [] => moduleSymbolId
  | (s, e, sym) :: rest =>
    if s ≤ line1 && line1 ≤ e then sym
    else enclosingSymbolAt rest moduleSymbolId line1

/-- `_loc` on an expression node. -/
def exprLoc (env : R2Env) (p : Pos) : SourceLocation :=
  { file_path := env.relPath, line := p.lineno - 1, column := p.col }

/-- The parameter/return parsing of `_collect_external_symbol` for jedi
`function` candidates (first signature; return text after the last `->`;
parameter type after the first `:` of the description). -/
def parseJediSignatures (j : JediName) : List Parameter × List String :=
  match j.signatures with
  | .error _ => ([], [])
  | .ok [] => ([], [])
  | .ok (sig :: _) =>
    let returnTypes :=
      if strContainsSub sig.toStr "->" then
        let ret := pyStrip (((pySplit sig.toStr "->").getLast?).getD "")
        if ret = "" then [] else [ret]
      else []
    let params := sig.params.map fun p =>
      let pType : Option String :=
        match p.description with
        | Option.some d =>
          if d = "" then Option.none
          else if strContainsSub d ":" then
            Option.some (pyStrip (String.intercalate ":" (pySplit d ":").tail))
          else Option.none
        | Option.none => Option.none
      { name := p.name, param_type := pType : Parameter }
    (params, returnTypes)

/-- `_collect_external_symbol`: insert a synthesized external definition
once per symbol_id (an existing entry is returned untouched).

The source reads `jedi_def.full_name` for `display_name` outside any
`try`; a raise there is modeled as falling back to `name` (no claim
depends on that propagation path). -/
def collectExternalSymbol (st : R2State) (targetSym : String) (j : JediName) : R2State :=
  if st.externals.any (fun d => d.symbol_id = targetSym) then st
  else
    match j.name with
    | Option.none => st
    | Option.some n =>
      if n = "" then st
      else
        let doc : List String :=
          match j.docstring with
          | .ok ds => if ds = "" then [] else [ds]
          | .error _ => []
        let filePath := j.modulePath.getD "unknown"
        let line :=
          (match j.line with
           | Option.some l => if l = 0 then 1 else l
           | Option.none => 1) - 1
        let column := j.column.getD 0
        let dispName :=
          match j.fullName with
          | .ok (Option.some fn) => if fn = "" then n else fn
          | .ok Option.none => n
          | .error _ => n
        let kindAndDetails : SymbolKind × SymbolDetails :=
          if j.kindStr = "class" then (.Type, .type { kind := .Class })
          else if j.kindStr = "function" then
            let pr := parseJediSignatures j
            (.Function, .function
              { parameters := pr.1, return_types := pr.2, type_params := [], modifiers := {} })
          else (.Variable, .var { mutability := .Immutable })
        { st with externals := st.externals ++ [{
            symbol_id := targetSym
            kind := kindAndDetails.1
            name := n
            display_name := dispName
            location := { file_path := filePath, line := line, column := column }
            span := { start_line := line, start_column := column
                      end_line := line + 1, end_column := column }
            enclosing_symbol := Option.none
            is_external := true
            documentation := doc
            details := kindAndDetails.2 }] }

/-- The resolution sequence shared by every use site: take the first
candidate, try the project table, then fall back to the qualified name and
synthesize an external symbol for a truthy result. -/
def resolveSite (env : R2Env) (st : R2State) (line col : Nat) : Option String × R2State :=
  match env.resolve line col with
  | [] => (Option.none, st)
  | j :: _ =>
    let t1 := definitionSymbolIdFromJedi env.allDefinitions (Option.some j)
    if optStrTruthy t1 then (t1, st)
    else
      match fullNameFromJedi (Option.some j) with
      | Option.none => (Option.none, st)
      | Option.some s =>
        if s = "" then (Option.some s, st)
        else (Option.some s, collectExternalSymbol st s j)

/-- Receiver resolution (project-table match only). -/
def resolveReceiver (env : R2Env) (line col : Nat) : Option String :=
  match env.resolve line col with
  | [] => Option.none
  | j :: _ => definitionSymbolIdFromJedi env.allDefinitions (Option.some j)

/-- The `assigned_to` computation of `visit_Call`: the parent is an
`Assign` whose value is this call; only the first target is examined, and
it must be a plain name matching a Variable definition recorded at the
assignment's line. -/
def computeAssignedTo (defs : List SymbolDefinition)
    (aparent : Option (List Expr × Nat)) : Option String :=
  match aparent with
  | Option.none => Option.none
  | Option.some (targets, plineno) =>
    match targets with
    | [] => Option.none
    | t :: _ =>
      match t with
      | .name tid _ _ =>
        (defs.find? fun d =>
          d.kind = SymbolKind.Variable && d.location.line = plineno - 1 &&
            d.name = tid).map fun d => d.symbol_id
      | _ => Option.none

/-- `_visit_decorator`: resolve plain-name or attribute decorators, then
append a `Decorate` reference unconditionally (`if target_sym or True`),
with the decorated symbol as `enclosing_symbol`. -/
def r2VisitDecorator (env : R2Env) (decoratedId : String) (st : R2State) (d : Expr) :
    R2State :=
  let resolved : Option String × R2State :=
    match d with
    | .name _ _ p => resolveSite env st p.lineno p.col
    | .attr _ _ _ p => resolveSite env st p.lineno p.col
    | _ => (Option.none, st)
  let st1 := resolved.2
  { st1 with references := st1.references ++ [{
      target_symbol := resolved.1
      location := exprLoc env d.pos
      enclosing_symbol := decoratedId
      role := .Decorate }] }

/-- `visit_FunctionDef`'s symbol-id rematch: the first table entry whose id
equals the concatenated tentative id, or whose name and defining
file/line match the node. -/
def findFuncMatch (defs : List SymbolDefinition) (tentative fname relPath : String)
    (line0 : Nat) : Option SymbolDefinition :=
  defs.find? fun d =>
    d.symbol_id = tentative ||
      (d.name = fname && d.location.file_path = relPath && d.location.line = line0)

mutual

/-- `ReferenceCollector.visit` on one statement.  Unhandled statements go
through `generic_visit`, which walks child nodes in `ast` field order. -/
def r2Stmt (env : R2Env) (spans : List (Nat × Nat × String)) (st : R2State) :
    Stmt → R2State
  | .functionDef _ fname args body decorators returns loc =>
    let enc := enclosingSymbolAt spans env.moduleSymbolId loc.lineno
    let tentative := enc ++ "." ++ fname
    let funcId :=
      match findFuncMatch env.allDefinitions tentative fname env.relPath (loc.lineno - 1) with
      | Option.some d => d.symbol_id
      | Option.none => tentative
    let spans2 := (loc.lineno, loc.endLineno, funcId) :: spans
    let st1 := decorators.toList.foldl (r2VisitDecorator env funcId) st
    let st2 := r2Args env spans2 st1 args
    let st3 := r2Stmts env spans2 st2 body
    let st4 := r2Exprs env spans2 st3 decorators
    r2OptExpr env spans2 st4 returns
  | .classDef _ bases kws body decorators _ _ =>
    let st1 := r2Exprs env spans st bases
    let st2 := r2Exprs env spans st1 kws
    let st3 := r2Stmts env spans st2 body
    r2Exprs env spans st3 decorators
  | .assign targets value loc =>
    let st1 := r2Exprs env spans st targets
    r2Expr env spans (Option.some (targets.toList, loc.lineno)) st1 value
  | .annAssign target annotation value _ =>
    let st1 := r2Expr env spans Option.none st target
    let st2 := r2Expr env spans Option.none st1 annotation
    r2OptExpr env spans st2 value
  | .ret value _ => r2OptExpr env spans st value
  | .passStmt _ => st
  | .exprStmt value _ => r2Expr env spans Option.none st value

def r2Stmts (env : R2Env) (spans : List (Nat × Nat × String)) (st : R2State) :
    StmtList → R2State
  | .nil => st
  | .cons s rest => r2Stmts env spans (r2Stmt env spans st s) rest

/-- `ReferenceCollector.visit` on one expression.  `aparent` carries the
enclosing `Assign` exactly when this node is that assignment's direct
value (the source reads this off injected parent pointers). -/
def r2Expr (env : R2Env) (spans : List (Nat × Nat × String))
    (aparent : Option (List Expr × Nat)) (st : R2State) : Expr → R2State
  | .call f args kws p =>
    let enc := enclosingSymbolAt spans env.moduleSymbolId p.lineno
    if enc = "" then
      let st1 := r2Expr env spans Option.none st f
      let st2 := r2Exprs env spans st1 args
      r2Exprs env spans st2 kws
    else
      let resolved : Option String × R2State × Option String × Option String :=
        match f with
        | .name _ _ fp =>
          let r := resolveSite env st fp.lineno fp.col
          (r.1, r.2, Option.none, Option.none)
        | .attr v attrName _ fp =>
          let r := resolveSite env st fp.lineno fp.col
          let receiver :=
            match v with
            | .name _ _ vp => resolveReceiver env vp.lineno vp.col
            | _ => Option.none
          (r.1, r.2, receiver, Option.some attrName)
        | _ => (Option.none, st, Option.none, Option.none)
      let st1 := resolved.2.1
      let st2 : R2State :=
        { st1 with references := st1.references ++ [{
            target_symbol := resolved.1
            location := exprLoc env p
            enclosing_symbol := enc
            role := .Call
            receiver := resolved.2.2.1
            method_name := resolved.2.2.2
            assigned_to := computeAssignedTo env.allDefinitions aparent }] }
      let st3 := r2Expr env spans Option.none st2 f
      let st4 := r2Exprs env spans st3 args
      r2Exprs env spans st4 kws
  | .name _ ctx p =>
    let enc := enclosingSymbolAt spans env.moduleSymbolId p.lineno
    if enc = "" then st
    else
      match ctx with
      | .load =>
        let r := resolveSite env st p.lineno p.col
        match r.1 with
        | Option.some ts =>
          if ts = "" then r.2
          else
            let isVar := env.allDefinitions.any fun d =>
              d.symbol_id = ts && d.kind = SymbolKind.Variable
            let isExt := r.2.externals.any fun d => d.symbol_id = ts && d.is_external
            if isVar || isExt then
              { r.2 with references := r.2.references ++ [{
                  target_symbol := Option.some ts
                  location := exprLoc env p
                  enclosing_symbol := enc
                  role := .Read }] }
            else r.2
        | Option.none => r.2
      | .store =>
        let r := resolveSite env st p.lineno p.col
        match r.1 with
        | Option.some ts =>
          if ts = "" then r.2
          else
            let isVar := env.allDefinitions.any fun d =>
              d.symbol_id = ts && d.kind = SymbolKind.Variable
            let isExt := r.2.externals.any fun d => d.symbol_id = ts && d.is_external
            if isVar || isExt then
              { r.2 with references := r.2.references ++ [{
                  target_symbol := Option.some ts
                  location := exprLoc env p
                  enclosing_symbol := enc
                  role := .Write }] }
            else r.2
        | Option.none => r.2
      | .del => st
  | .attr v _ ctx p =>
    let enc := enclosingSymbolAt spans env.moduleSymbolId p.lineno
    if enc = "" then r2Expr env spans Option.none st v
    else
      let stOut :=
        match ctx with
        | .load =>
          let r := resolveSite env st p.lineno p.col
          match r.1 with
          | Option.some ts =>
            if ts = "" then r.2
            else
              let isVar := env.allDefinitions.any fun d =>
                d.symbol_id = ts && d.kind = SymbolKind.Variable
              let isExt := r.2.externals.any fun d => d.symbol_id = ts && d.is_external
              if isVar || isExt then
                let receiver :=
                  match v with
                  | .name _ _ vp => resolveReceiver env vp.lineno vp.col
                  | _ => Option.none
                { r.2 with references := r.2.references ++ [{
                    target_symbol := Option.some ts
                    location := exprLoc env p
                    enclosing_symbol := enc
                    role := .Read
                    receiver := receiver }] }
              else r.2
          | Option.none => r.2
        | .store =>
          let r := resolveSite env st p.lineno p.col
          match r.1 with
          | Option.some ts =>
            if ts = "" then r.2
            else
              let isVar := env.allDefinitions.any fun d =>
                d.symbol_id = ts && d.kind = SymbolKind.Variable
              let isExt := r.2.externals.any fun d => d.symbol_id = ts && d.is_external
              if isVar || isExt then
                let receiver :=
                  match v with
                  | .name _ _ vp => resolveReceiver env vp.lineno vp.col
                  | _ => Option.none
                { r.2 with references := r.2.references ++ [{
                    target_symbol := Option.some ts
                    location := exprLoc env p
                    enclosing_symbol := enc
                    role := .Write
                    receiver := receiver }] }
              else r.2
          | Option.none => r.2
        | .del => st
      r2Expr env spans Option.none stOut v
  | .constStr _ _ => st
  | .constOther _ => st
  | .subscript v sl _ _ =>
    let st1 := r2Expr env spans Option.none st v
    r2Expr env spans Option.none st1 sl
  | .tupleE elts _ _ => r2Exprs env spans st elts
  | .listE elts _ _ => r2Exprs env spans st elts
  | .yieldE v _ => r2OptExpr env spans st v

def r2Exprs (env : R2Env) (spans : List (Nat × Nat × String)) (st : R2State) :
    ExprList → R2State
  | .nil => st
  | .cons e es => r2Exprs env spans (r2Expr env spans Option.none st e) es

def r2OptExpr (env : R2Env) (spans : List (Nat × Nat × String)) (st : R2State) :
    OptExpr → R2State
  | .none => st
  | .some e => r2Expr env spans Option.none st e

/-- `generic_visit` over an `ast.arguments` node, in field order. -/
def r2Args (env : R2Env) (spans : List (Nat × Nat × String)) (st : R2State) :
    PyArguments → R2State
  | .mk posonly args va kwonly kwDefaults kwa defaults =>
    let st1 := r2ArgList env spans st posonly
    let st2 := r2ArgList env spans st1 args
    let st3 := r2OptArg env spans st2 va
    let st4 := r2ArgList env spans st3 kwonly
    let st5 := r2Exprs env spans st4 kwDefaults
    let st6 := r2OptArg env spans st5 kwa
    r2Exprs env spans st6 defaults

def r2ArgList (env : R2Env) (spans : List (Nat × Nat × String)) (st : R2State) :
    PyArgList → R2State
  | .nil => st
  | .cons a rest => r2ArgList env spans (r2OptExpr env spans st a.annotation) rest

def r2OptArg (env : R2Env) (spans : List (Nat × Nat × String)) (st : R2State) :
    OptPyArg → R2State
  | .none => st
  | .some a => r2OptExpr env spans st a.annotation

end

/-- `collect_references` over one parsed file, with a raising-capable
oracle (`jedi.Script.goto`). -/
def collectReferences (relPath : String) (allDefinitions : List SymbolDefinition)
    (moduleSymbolId : String) (script : Nat → Nat → Except Unit (List JediName))
    (tree : StmtList) : R2State :=
  r2Stmts
    { relPath := relPath
      allDefinitions := allDefinitions
      moduleSymbolId := moduleSymbolId
      resolve := catchResolve script } [] { references := [], externals := [] } tree


/-! ## Project pipeline (main.py run_extract)

Pass 1 runs over every file into one shared definition table, then Pass 2
runs per file against that table; the synthesized externals are merged
into an insertion-ordered map keyed by symbol_id
(`external_symbols[ext.symbol_id] = ext`).  File reading, parse-failure
skipping and progress logging are outside the embedded happy path. -/

/-- One input file: its relative path, source lines, parsed tree, and the
oracle that the shared jedi script realizes for positions of this file. -/
structure InputFile where
  relPath : String
  srcLines : List String
  tree : StmtList
  script : Nat → Nat → Except Unit (List JediName)

/-- Ordered-dict upsert: an existing key has its value replaced in place,
a new key is appended. -/
def dictUpsert (m : List SymbolDefinition) (e : SymbolDefinition) :
    List SymbolDefinition :=
  if m.any fun d => d.symbol_id = e.symbol_id then
    m.map fun d => if d.symbol_id = e.symbol_id then e else d
  else m ++ [e]

def dictUpsertAll (m : List SymbolDefinition) :
    List SymbolDefinition → List SymbolDefinition
  | [] => m
  | e :: es => dictUpsertAll (dictUpsert m e) es

/-- `run_extract`. -/
def runExtract (projectRoot : String) (files : List InputFile) : SemanticData :=
  let perFileDefs := files.map fun f => extractDefinitions f.relPath f.srcLines f.tree
  let allDefs := perFileDefs.foldl (fun acc ds => acc ++ ds) []
  let perFileRefs := files.map fun f =>
    collectReferences f.relPath allDefs (moduleIdOfRelPath f.relPath) f.script f.tree
  let documents := (files.zip (perFileDefs.zip perFileRefs)).map fun fp =>
    { relative_path := fp.1.relPath
      language := "python"
      definitions := fp.2.1
      references := fp.2.2.references : DocumentSemantics }
  let externals := perFileRefs.foldl (fun m r => dictUpsertAll m r.externals) []
  { project_root := projectRoot, documents := documents, external_symbols := externals }

/-! ## Concrete inputs

Parsed fixtures used to evaluate the pipeline at specific programs.  The
always-raising script stands for an oracle whose every call raises, which
`_resolve_at` turns into zero candidates. -/

def failingScript : Nat → Nat → Except Unit (List JediName) := fun _ _ => .error ()

/-- `tests/fixtures/test_nested_call.py`:
```
1  """Fixture: call inside nested function should be attributed to outer defined symbol."""
2
3
4  class APIRouter:
5      def add_api_route(self, path: str, fn):
6          pass
7
8      def api_route(self, path: str):
9          def decorator(fn):
10             self.add_api_route(path, fn)
11             return fn
12         return decorator
``` -/
def nestedCallTree : StmtList :=
  .cons (.exprStmt (.constStr
      "Fixture: call inside nested function should be attributed to outer defined symbol."
      ⟨1, 0⟩) ⟨1, 0, 1, 89⟩)
  (.cons (.classDef "APIRouter" .nil .nil
    (.cons (.functionDef false "add_api_route"
        (.mk .nil
          (.cons (.mk "self" .none)
           (.cons (.mk "path" (.some (.name "str" .load ⟨5, 33⟩)))
            (.cons (.mk "fn" .none) .nil)))
          .none .nil .nil .none .nil)
        (.cons (.passStmt ⟨6, 8, 6, 12⟩) .nil)
        .nil .none ⟨5, 4, 6, 12⟩)
     (.cons (.functionDef false "api_route"
        (.mk .nil
          (.cons (.mk "self" .none)
           (.cons (.mk "path" (.some (.name "str" .load ⟨8, 25⟩))) .nil))
          .none .nil .nil .none .nil)
        (.cons (.functionDef false "decorator"
            (.mk .nil (.cons (.mk "fn" .none) .nil) .none .nil .nil .none .nil)
            (.cons (.exprStmt (.call
                (.attr (.name "self" .load ⟨10, 12⟩) "add_api_route" .load ⟨10, 12⟩)
                (.cons (.name "path" .load ⟨10, 31⟩)
                 (.cons (.name "fn" .load ⟨10, 37⟩) .nil))
                .nil ⟨10, 12⟩) ⟨10, 12, 10, 40⟩)
             (.cons (.ret (.some (.name "fn" .load ⟨11, 19⟩)) ⟨11, 12, 11, 21⟩) .nil))
            .nil .none ⟨9, 8, 11, 21⟩)
         (.cons (.ret (.some (.name "decorator" .load ⟨12, 15⟩)) ⟨12, 8, 12, 24⟩) .nil))
        .nil .none ⟨8, 4, 12, 24⟩) .nil))
    .nil
    "class APIRouter:\n    def add_api_route(self, path: str, fn):\n        pass\n\n    def api_route(self, path: str):\n        def decorator(fn):\n            self.add_api_route(path, fn)\n            return fn\n        return decorator"
    ⟨4, 0, 12, 24⟩) .nil)

def nestedCallSrcLines : List String :=
  ["\"\"\"Fixture: call inside nested function should be attributed to outer defined symbol.\"\"\"",
   "", "",
   "class APIRouter:",
   "    def add_api_route(self, path: str, fn):",
   "        pass",
   "",
   "    def api_route(self, path: str):",
   "        def decorator(fn):",
   "            self.add_api_route(path, fn)",
   "            return fn",
   "        return decorator"]

def nestedCallDefs : List SymbolDefinition :=
  extractDefinitions "test_nested_call.py" nestedCallSrcLines nestedCallTree

def nestedCallRun : R2State :=
  collectReferences "test_nested_call.py" nestedCallDefs "test_nested_call"
    failingScript nestedCallTree

/-- A module whose single statement calls an out-of-project function:
`1: fetch()`. -/
def extCallTree : StmtList :=
  .cons (.exprStmt (.call (.name "fetch" .load ⟨1, 0⟩) .nil .nil ⟨1, 0⟩) ⟨1, 0, 1, 7⟩) .nil

/-- An oracle candidate that resolves to an out-of-project function. -/
def fetchCandidate (doc : String) : JediName :=
  { modulePath := Option.some "/site-packages/extmod.py"
    line := Option.some 3
    column := Option.some 0
    name := Option.some "fetch"
    fullName := .ok (Option.some "extmod.fetch")
    kindStr := "function"
    docstring := .ok doc
    signatures := .ok [] }

def extCallScript (doc : String) : Nat → Nat → Except Unit (List JediName) :=
  fun _ _ => .ok [fetchCandidate doc]

def extCallRun : R2State :=
  collectReferences "m.py" [] "m" (extCallScript "") extCallTree

/-- A module reading a name the oracle cannot resolve: `1: x`. -/
def bareReadTree : StmtList :=
  .cons (.exprStmt (.name "x" .load ⟨1, 0⟩) ⟨1, 0, 1, 1⟩) .nil

/-- A decorated class: `1: @dec` / `2: class C:` / `3:     pass`. -/
def decoratedClassTree : StmtList :=
  .cons (.classDef "C" .nil .nil
    (.cons (.passStmt ⟨3, 4, 3, 8⟩) .nil)
    (.cons (.name "dec" .load ⟨1, 1⟩) .nil)
    "class C:\n    pass"
    ⟨2, 0, 3, 8⟩) .nil

/-- A function with two decorators:
`1: @a` / `2: @b` / `3: def f():` / `4:     pass`. -/
def twoDecoratorTree : StmtList :=
  .cons (.functionDef false "f" (.mk .nil .nil .none .nil .nil .none .nil)
    (.cons (.passStmt ⟨4, 4, 4, 8⟩) .nil)
    (.cons (.name "a" .load ⟨1, 1⟩) (.cons (.name "b" .load ⟨2, 1⟩) .nil))
    .none ⟨3, 0, 4, 8⟩) .nil

/-- Module-level re-assignment of one name:
`1: x = 1` / `2: x = 2`. -/
def reassignTree : StmtList :=
  .cons (.assign (.cons (.name "x" .store ⟨1, 0⟩) .nil) (.constOther ⟨1, 4⟩) ⟨1, 0, 1, 5⟩)
  (.cons (.assign (.cons (.name "x" .store ⟨2, 0⟩) .nil) (.constOther ⟨2, 4⟩) ⟨2, 0, 2, 5⟩)
   .nil)

/-- A nested function definition:
`1: def outer():` / `2:     def inner():` / `3:         pass`. -/
def nestedDefTree : StmtList :=
  .cons (.functionDef false "outer" (.mk .nil .nil .none .nil .nil .none .nil)
    (.cons (.functionDef false "inner" (.mk .nil .nil .none .nil .nil .none .nil)
      (.cons (.passStmt ⟨3, 8, 3, 12⟩) .nil)
      .nil .none ⟨2, 4, 3, 12⟩) .nil)
    .nil .none ⟨1, 0, 3, 12⟩) .nil


/-- `tests/fixtures/test_annotated_doc.py`'s `Body` function (the two
`import` statements are omitted: neither collector visits `Import`
nodes). -/
def bodyArgs : PyArguments :=
  .mk .nil
    (.cons (.mk "default" (.some (.subscript (.name "Annotated" .load ⟨5, 13⟩)
      (.tupleE (.cons (.attr (.name "typing" .load ⟨6, 8⟩) "Any" .load ⟨6, 8⟩)
        (.cons (.call (.name "Doc" .load ⟨7, 8⟩)
          (.cons (.constStr "\n            Default value if the parameter field is not set.\n            " ⟨8, 12⟩) .nil)
          .nil ⟨7, 8⟩) .nil)) .load ⟨6, 8⟩) .load ⟨5, 13⟩))) .nil)
    .none
    (.cons (.mk "media_type" (.some (.subscript (.name "Annotated" .load ⟨14, 16⟩)
      (.tupleE (.cons (.name "str" .load ⟨15, 8⟩)
        (.cons (.call (.name "Doc" .load ⟨16, 8⟩)
          (.cons (.constStr "The media type." ⟨16, 12⟩) .nil) .nil ⟨16, 8⟩) .nil))
        .load ⟨15, 8⟩) .load ⟨14, 16⟩))) .nil)
    (.cons (.constStr "application/json" ⟨17, 6⟩) .nil)
    .none
    (.cons (.constOther ⟨12, 8⟩) .nil)

def bodyReturns : OptExpr :=
  .some (.attr (.name "typing" .load ⟨18, 5⟩) "Any" .load ⟨18, 5⟩)

def bodyBody : StmtList :=
  .cons (.passStmt ⟨19, 4, 19, 8⟩) .nil

def bodyTree : StmtList :=
  .cons (.functionDef false "Body" bodyArgs bodyBody .nil bodyReturns ⟨4, 0, 19, 8⟩) .nil

def annotatedDocDefs : List SymbolDefinition :=
  extractDefinitions "test_annotated_doc.py" [] bodyTree

def decoratedClassDefs : List SymbolDefinition :=
  extractDefinitions "m.py" ["@dec", "class C:", "    pass"] decoratedClassTree

def decoratedClassRun : R2State :=
  collectReferences "m.py" decoratedClassDefs "m" failingScript decoratedClassTree

def reassignDefs : List SymbolDefinition :=
  extractDefinitions "m.py" ["x = 1", "x = 2"] reassignTree

def nestedDefDefs : List SymbolDefinition :=
  extractDefinitions "m.py" ["def outer():", "    def inner():", "        pass"] nestedDefTree

/-- Two input files whose single statement each calls the same
out-of-project target, resolved by the oracle with different docstrings
(as distinct resolution sites may yield, e.g. a stub versus an
implementation). -/
def twoFileExternalInputs : List InputFile :=
  [{ relPath := "a.py", srcLines := ["fetch()"], tree := extCallTree
     script := extCallScript "docA" },
   { relPath := "b.py", srcLines := ["fetch()"], tree := extCallTree
     script := extCallScript "docB" }]

/-! ## Specification-side predicates and recursions

Decidable predicates and independent recursions used to state the general
claims about the reference collector. -/

/-- An `enclosing_symbol` value sanctioned by the data-model invariant:
the module-default id or a recorded definition's symbol_id. -/
def EncGoodStr (defs : List SymbolDefinition) (moduleId sym : String) : Prop :=
  sym = moduleId ∨ ∃ d ∈ defs, d.symbol_id = sym

/-- The Read/Write emission guard, as a property of an emitted reference:
its target resolved to a project-local Variable-kind definition or to a
synthesized external symbol. -/
def RWGood (defs exts : List SymbolDefinition) (r : SymbolReference) : Prop :=
  (r.role = ReferenceRole.Read ∨ r.role = ReferenceRole.Write) →
    ∃ ts, r.target_symbol = Option.some ts ∧ ts ≠ "" ∧
      ((∃ d ∈ defs, d.symbol_id = ts ∧ d.kind = SymbolKind.Variable) ∨
       (∃ d ∈ exts, d.symbol_id = ts ∧ d.is_external = true))

/-- The Decorate projection of a reference. -/
def decorateEnc (r : SymbolReference) : Option String :=
  if r.role = ReferenceRole.Decorate then Option.some r.enclosing_symbol else Option.none

/-- Whether every function definition of a statement (at any nesting) has
a matching Pass-1 record in `defs` (name, defining file, defining line) —
the condition under which Pass 2's rematch always lands in the table. -/
def funcCovered (defs : List SymbolDefinition) (relPath fname : String) (line0 : Nat) :
    Bool :=
  defs.any fun d =>
    d.name = fname && d.location.file_path = relPath && d.location.line = line0

mutual

def coveredStmt (defs : List SymbolDefinition) (relPath : String) : Stmt → Bool
  | .functionDef _ fname _ body _ _ loc =>
    funcCovered defs relPath fname (loc.lineno - 1) && coveredStmts defs relPath body
  | .classDef _ _ _ body _ _ _ => coveredStmts defs relPath body
  | .assign _ _ _ => true
  | .annAssign _ _ _ _ => true
  | .ret _ _ => true
  | .passStmt _ => true
  | .exprStmt _ _ => true

def coveredStmts (defs : List SymbolDefinition) (relPath : String) : StmtList → Bool
  | .nil => true
  | .cons s rest => coveredStmt defs relPath s && coveredStmts defs relPath rest

end

/-- The function-span symbol id Pass 2 associates with a function node. -/
def funcIdOf (defs : List SymbolDefinition) (relPath moduleId : String)
    (spans : List (Nat × Nat × String)) (fname : String) (loc : NodeLoc) : String :=
  let enc := enclosingSymbolAt spans moduleId loc.lineno
  let tentative := enc ++ "." ++ fname
  match findFuncMatch defs tentative fname relPath (loc.lineno - 1) with
  | Option.some d => d.symbol_id
  | Option.none => tentative

mutual

/-- The expected Decorate-projection of the reference output: one entry
per decorator of each (sync or async) function definition, carrying the
decorated function's resolved symbol id; class decorators contribute
nothing. -/
def decoSpecStmt (defs : List SymbolDefinition) (relPath moduleId : String)
    (spans : List (Nat × Nat × String)) : Stmt → List String
  | .functionDef _ fname _ body decorators _ loc =>
    let funcId := funcIdOf defs relPath moduleId spans fname loc
    List.replicate decorators.toList.length funcId ++
      decoSpecStmts defs relPath moduleId ((loc.lineno, loc.endLineno, funcId) :: spans) body
  | .classDef _ _ _ body _ _ _ => decoSpecStmts defs relPath moduleId spans body
  | .assign _ _ _ => []
  | .annAssign _ _ _ _ => []
  | .ret _ _ => []
  | .passStmt _ => []
  | .exprStmt _ _ => []

def decoSpecStmts (defs : List SymbolDefinition) (relPath moduleId : String)
    (spans : List (Nat × Nat × String)) : StmtList → List String
  | .nil => []
  | .cons s rest =>
    decoSpecStmt defs relPath moduleId spans s ++
      decoSpecStmts defs relPath moduleId spans rest

end

mutual

/-- The number of `ast.Call` expressions in a statement (each is visited
exactly once by the reference collector). -/
def callCountStmt : Stmt → Nat
  | .functionDef _ _ args body decorators returns _ =>
    callCountArgs args + callCountStmts body + callCountExprs decorators +
      callCountOptExpr returns
  | .classDef _ bases kws body decorators _ _ =>
    callCountExprs bases + callCountExprs kws + callCountStmts body +
      callCountExprs decorators
  | .assign targets value _ => callCountExprs targets + callCountExpr value
  | .annAssign t ann v _ => callCountExpr t + callCountExpr ann + callCountOptExpr v
  | .ret v _ => callCountOptExpr v
  | .passStmt _ => 0
  | .exprStmt v _ => callCountExpr v

def callCountStmts : StmtList → Nat
  | .nil => 0
  | .cons s rest => callCountStmt s + callCountStmts rest

def callCountExpr : Expr → Nat
  | .name .. => 0
  | .attr v _ _ _ => callCountExpr v
  | .call f args kws _ => 1 + callCountExpr f + callCountExprs args + callCountExprs kws
  | .constStr .. => 0
  | .constOther .. => 0
  | .subscript v sl _ _ => callCountExpr v + callCountExpr sl
  | .tupleE elts _ _ => callCountExprs elts
  | .listE elts _ _ => callCountExprs elts
  | .yieldE v _ => callCountOptExpr v

def callCountExprs : ExprList → Nat
  | .nil => 0
  | .cons e es => callCountExpr e + callCountExprs es

def callCountOptExpr : OptExpr → Nat
  | .none => 0
  | .some e => callCountExpr e

def callCountArgs : PyArguments → Nat
  | .mk posonly args va kwonly kwDefaults kwa defaults =>
    callCountArgList posonly + callCountArgList args + callCountOptArg va +
      callCountArgList kwonly + callCountExprs kwDefaults + callCountOptArg kwa +
      callCountExprs defaults

def callCountArgList : PyArgList → Nat
  | .nil => 0
  | .cons a rest => callCountOptExpr a.annotation + callCountArgList rest

def callCountOptArg : OptPyArg → Nat
  | .none => 0
  | .some a => callCountOptExpr a.annotation

end

/-- Whether a name is declared anywhere the Pass-1 collector records a
Variable for it: a plain-name assignment target outside all function
bodies, or a `self.`/`cls.` attribute-assignment target inside a method
body. -/
def declaresVarTarget (n : String) (fdepth : Nat) (inClass : Bool) : Expr → Bool
  | .name tid _ _ => fdepth = 0 && tid = n
  | .attr (.name recv _ _) attrId _ _ =>
    fdepth > 0 && inClass && (recv = "self" || recv = "cls") && attrId = n
  | _ => false

mutual

def declaresVarStmt (n : String) (fdepth : Nat) (inClass : Bool) : Stmt → Bool
  | .functionDef _ _ _ body _ _ _ => declaresVarStmts n (fdepth + 1) inClass body
  | .classDef _ _ _ body _ _ _ => declaresVarStmts n fdepth true body
  | .assign targets _ _ => targets.toList.any (declaresVarTarget n fdepth inClass)
  | .annAssign t _ _ _ => declaresVarTarget n fdepth inClass t
  | .ret _ _ => false
  | .passStmt _ => false
  | .exprStmt _ _ => false

def declaresVarStmts (n : String) (fdepth : Nat) (inClass : Bool) : StmtList → Bool
  | .nil => false
  | .cons s rest =>
    declaresVarStmt n fdepth inClass s || declaresVarStmts n fdepth inClass rest

end

/-- All declared names of a tree are free of the symbol-id delimiter. -/
def noDot (s : String) : Bool :=
  s.data.all fun ch => ch ≠ '.'

mutual

def dotFreeStmt : Stmt → Bool
  | .functionDef _ fname _ body _ _ _ => noDot fname && dotFreeStmts body
  | .classDef cname _ _ body _ _ _ => noDot cname && dotFreeStmts body
  | .assign targets _ _ =>
    targets.toList.all fun t =>
      match t with
      | .name tid _ _ => noDot tid
      | .attr _ attrId _ _ => noDot attrId
      | _ => true
  | .annAssign t _ _ _ =>
    (match t with
     | .name tid _ _ => noDot tid
     | .attr _ attrId _ _ => noDot attrId
     | _ => true)
  | .ret _ _ => true
  | .passStmt _ => true
  | .exprStmt _ _ => true

def dotFreeStmts : StmtList → Bool
  | .nil => true
  | .cons s rest => dotFreeStmt s && dotFreeStmts rest

end

/-- The facts one collector step establishes: references and externals are
append-only; every appended Read/Write reference passed the
Variable-or-external guard; under a well-formed span stack (and, for
statements, Pass-1 coverage `cov` of the statement's function nodes) every
appended reference's `enclosing_symbol` is the module default or a
recorded definition's id; the appended Decorate projection and Call count
are as predicted. -/
def Step (env : R2Env) (spans : List (Nat × Nat × String)) (cov : Prop)
    (st out : R2State) (deco : List String) (cnt : Nat) : Prop :=
  ∃ rs es,
    out.references = st.references ++ rs ∧
    out.externals = st.externals ++ es ∧
    (∀ r ∈ rs, RWGood env.allDefinitions out.externals r) ∧
    ((∀ t ∈ spans, EncGoodStr env.allDefinitions env.moduleSymbolId t.2.2) → cov →
      ∀ r ∈ rs, EncGoodStr env.allDefinitions env.moduleSymbolId r.enclosing_symbol) ∧
    rs.filterMap decorateEnc = deco ∧
    (env.moduleSymbolId ≠ "" → (∀ d ∈ env.allDefinitions, d.symbol_id ≠ "") →
      (∀ t ∈ spans, t.2.2 ≠ "") →
      rs.countP (fun r => decide (r.role = ReferenceRole.Call)) = cnt)


/-- Placeholder reference for positional access into concrete runs. -/
def refDummy : SymbolReference :=
  { location := { file_path := "", line := 0, column := 0 }
    enclosing_symbol := ""
    role := .Read }

/-- Placeholder definition for positional access into concrete tables. -/
def defDummy : SymbolDefinition :=
  { symbol_id := ""
    kind := .Variable
    name := ""
    display_name := ""
    location := { file_path := "", line := 0, column := 0 }
    span := { start_line := 0, start_column := 0, end_line := 0, end_column := 0 }
    details := .var {} }

/-- `1: y = 1` / `2: def f():` / `3:     x = 2` — a module-level variable
next to a function-local one. -/
def localVarTree : StmtList :=
  .cons (.assign (.cons (.name "y" .store ⟨1, 0⟩) .nil) (.constOther ⟨1, 4⟩) ⟨1, 0, 1, 5⟩)
  (.cons (.functionDef false "f" (.mk .nil .nil .none .nil .nil .none .nil)
    (.cons (.assign (.cons (.name "x" .store ⟨3, 4⟩) .nil) (.constOther ⟨3, 8⟩)
      ⟨3, 4, 3, 9⟩) .nil)
    .nil .none ⟨2, 0, 3, 9⟩) .nil)


/-- Placeholder document for positional access into concrete runs. -/
def docDummy : DocumentSemantics :=
  { relative_path := "" }

/-- A one-file project over the re-assignment fixture. -/
def reassignInputs : List InputFile :=
  [{ relPath := "m.py", srcLines := ["x = 1", "x = 2"], tree := reassignTree,
     script := failingScript }]

end ContextFootprint

namespace ContextFootprint

/-! ## Round-trip lemmas for the serialization contract -/

theorem deserList_roundtrip (f : α → Json) (g : Json → Option α)
    (h : ∀ a, g (f a) = some a) (l : List α) : deserList g (l.map f) = some l := by
  induction l with
  | nil => rfl
  | cons a as ih => simp [deserList, h a, ih]

theorem strFromJson_roundtrip (s : String) : strFromJson (Json.str s) = some s := rfl

theorem optStr_roundtrip (o : Option String) : optStrFromJson (optStrJson o) = some o := by
  cases o <;> rfl

theorem symbolKind_roundtrip (k : SymbolKind) :
    symbolKindFromJson (symbolKindJson k) = some k := by cases k <;> rfl

theorem visibility_roundtrip (v : Visibility) :
    visibilityFromJson (visibilityJson v) = some v := by cases v <;> rfl

theorem mutability_roundtrip (m : Mutability) :
    mutabilityFromJson (mutabilityJson m) = some m := by cases m <;> rfl

theorem variableScope_roundtrip (s : VariableScope) :
    variableScopeFromJson (variableScopeJson s) = some s := by cases s <;> rfl

theorem referenceRole_roundtrip (r : ReferenceRole) :
    referenceRoleFromJson (referenceRoleJson r) = some r := by cases r <;> rfl

theorem typeKind_roundtrip (k : TypeKind) :
    typeKindFromJson (typeKindJson k) = some k := by cases k <;> rfl

theorem sourceLocation_roundtrip (l : SourceLocation) :
    sourceLocationFromJson (sourceLocationJson l) = some l := rfl

theorem sourceSpan_roundtrip (s : SourceSpan) :
    sourceSpanFromJson (sourceSpanJson s) = some s := rfl

theorem parameter_roundtrip (p : Parameter) :
    parameterFromJson (parameterJson p) = some p := by
  simp [parameterJson, parameterFromJson, optStr_roundtrip]

theorem typeParam_roundtrip (t : TypeParam) :
    typeParamFromJson (typeParamJson t) = some t := by
  simp [typeParamJson, typeParamFromJson,
        deserList_roundtrip _ _ strFromJson_roundtrip]

theorem functionModifiers_roundtrip (m : FunctionModifiers) :
    functionModifiersFromJson (functionModifiersJson m) = some m := by
  simp [functionModifiersJson, functionModifiersFromJson, visibility_roundtrip]

theorem functionDetails_roundtrip (d : FunctionDetails) :
    functionDetailsFromJson (functionDetailsJson d) = some d := by
  simp [functionDetailsJson, functionDetailsFromJson,
        deserList_roundtrip _ _ parameter_roundtrip,
        deserList_roundtrip _ _ strFromJson_roundtrip,
        deserList_roundtrip _ _ typeParam_roundtrip,
        functionModifiers_roundtrip]

theorem variableDetails_roundtrip (d : VariableDetails) :
    variableDetailsFromJson (variableDetailsJson d) = some d := by
  simp [variableDetailsJson, variableDetailsFromJson, optStr_roundtrip,
        mutability_roundtrip, variableScope_roundtrip, visibility_roundtrip]

theorem typeField_roundtrip (f : TypeField) :
    typeFieldFromJson (typeFieldJson f) = some f := by
  simp [typeFieldJson, typeFieldFromJson, optStr_roundtrip,
        mutability_roundtrip, visibility_roundtrip]

theorem typeDetails_roundtrip (d : TypeDetails) :
    typeDetailsFromJson (typeDetailsJson d) = some d := by
  simp [typeDetailsJson, typeDetailsFromJson, typeKind_roundtrip, visibility_roundtrip,
        deserList_roundtrip _ _ typeParam_roundtrip,
        deserList_roundtrip _ _ typeField_roundtrip,
        deserList_roundtrip _ _ strFromJson_roundtrip]

theorem symbolDetails_roundtrip (d : SymbolDetails) :
    symbolDetailsFromJson (symbolDetailsJson d) = some d := by
  cases d with
  | function f => simp [symbolDetailsJson, symbolDetailsFromJson, functionDetails_roundtrip]
  | var v => simp [symbolDetailsJson, symbolDetailsFromJson, variableDetails_roundtrip]
  | type t => simp [symbolDetailsJson, symbolDetailsFromJson, typeDetails_roundtrip]

set_option maxHeartbeats 2000000 in
theorem symbolDefinition_roundtrip (d : SymbolDefinition) :
    symbolDefinitionFromJson (symbolDefinitionJson d) = some d := by
  simp [symbolDefinitionJson, symbolDefinitionFromJson, symbolKind_roundtrip,
        sourceLocation_roundtrip, sourceSpan_roundtrip, optStr_roundtrip,
        deserList_roundtrip _ _ strFromJson_roundtrip, symbolDetails_roundtrip]

set_option maxHeartbeats 1000000 in
theorem symbolReference_roundtrip (r : SymbolReference) :
    symbolReferenceFromJson (symbolReferenceJson r) = some r := by
  simp [symbolReferenceJson, symbolReferenceFromJson, optStr_roundtrip,
        sourceLocation_roundtrip, referenceRole_roundtrip]

theorem documentSemantics_roundtrip (d : DocumentSemantics) :
    documentSemanticsFromJson (documentSemanticsJson d) = some d := by
  simp [documentSemanticsJson, documentSemanticsFromJson,
        deserList_roundtrip _ _ symbolDefinition_roundtrip,
        deserList_roundtrip _ _ symbolReference_roundtrip]

/-- C3: Serializing a project record to the structured output format and
deserializing it yields the identical record, the single-key tagged
`details` wrapper included. -/
theorem serialize_roundtrip_lossless (d : SemanticData) :
    semanticDataFromJson (semanticDataJson d) = some d := by
  simp [semanticDataJson, semanticDataFromJson,
        deserList_roundtrip _ _ documentSemantics_roundtrip,
        deserList_roundtrip _ _ symbolDefinition_roundtrip]


/-! ## Claim theorems: concrete evaluations -/

/-- C2: In the decorator-factory fixture (`test_nested_call.py`), the Call
reference produced by `self.add_api_route(path, fn)` inside the inner
helper `decorator` carries `enclosing_symbol`
`test_nested_call.APIRouter.decorator` — the inner helper's own symbol id,
not the outer `api_route`'s — because Pass 2's `visit_FunctionDef`
rematches the nested function to its own Pass-1 definition before pushing
its span.  The repository's own test
(`test_nested_function_call_attributed_to_outer`) asserts the outer id. -/
theorem nested_call_enclosing_is_inner_helper :
    (nestedCallRun.references.filterMap fun r =>
      if r.role = ReferenceRole.Call ∧ r.method_name = Option.some "add_api_route"
      then Option.some r.enclosing_symbol else Option.none)
      = ["test_nested_call.APIRouter.decorator"] ∧
    "test_nested_call.APIRouter.decorator" ≠ "test_nested_call.APIRouter.api_route" :=
  ⟨rfl, by decide⟩

/-- C4 counterexample: a function `inner` declared inside the body of
`outer` is recorded by Pass 1 (`_visit_function_def` never consults the
function stack), so the produced definition list is not limited to
module/class-level symbols. -/
theorem nested_function_recorded_in_definitions :
    nestedDefDefs.map (fun d => (d.symbol_id, d.name)) =
      [("m.outer", "outer"), ("m.inner", "inner")] := rfl

/-- C5 counterexample: a call to an out-of-project function yields a Read
reference (emitted for the `fetch` name by `visit_Name`) whose resolved
target is the synthesized external symbol of kind Function — not a
Variable-kind definition; the project table is empty. -/
theorem external_function_read_reference :
    (extCallRun.references.map fun r => (r.role, r.target_symbol)) =
      [(ReferenceRole.Call, Option.some "extmod.fetch"),
       (ReferenceRole.Read, Option.some "extmod.fetch")] ∧
    (extCallRun.externals.map fun d => (d.symbol_id, d.kind, d.is_external)) =
      [("extmod.fetch", SymbolKind.Function, true)] :=
  ⟨rfl, rfl⟩

/-- C6 counterexample: two module-level assignments to `x` produce two
definitions sharing the symbol_id `m.x`. -/
theorem duplicate_symbol_id_on_reassignment :
    reassignDefs.map (fun d => d.symbol_id) = ["m.x", "m.x"] ∧
    ¬ (reassignDefs.map fun d => d.symbol_id).Nodup :=
  ⟨rfl, by decide⟩

/-- C7 counterexample: the same external target synthesized from two files
with different oracle payloads keeps the *second* file's entry — the
project-level merge `external_symbols[ext.symbol_id] = ext` overwrites the
first resolution's entry. -/
theorem later_file_external_entry_replaces_first :
    ((runExtract "/proj" twoFileExternalInputs).external_symbols.map fun d =>
      (d.symbol_id, d.documentation)) = [("extmod.fetch", ["docB"])] ∧
    ["docB"] ≠ ["docA"] :=
  ⟨rfl, by decide⟩

/-- C8 counterexample: a class declared with one decorator yields no
Decorate reference at all (the reference collector has no `visit_ClassDef`,
so class decorators are only walked as plain expressions). -/
theorem decorated_class_emits_no_decorate_references :
    decoratedClassRun.references.filter (fun r => r.role = ReferenceRole.Decorate) = [] ∧
    decoratedClassRun.references = [] :=
  ⟨rfl, rfl⟩

/-- C9: for the `Body` fixture of `test_annotated_doc.py` the extractor
computes `use_signature_only_for_size = true` (Doc() in the annotations
and a trivial body), but `schema.FunctionModifiers` declares no such
field, so pydantic drops the keyword: the produced modifiers and their
serialized object carry exactly the seven declared fields and no
prefer-signature-for-sizing flag.  The repository's own test
(`test_annotated_style_factory_use_signature_only_for_size`) reads
`modifiers.use_signature_only_for_size` and would fail. -/
theorem use_signature_flag_computed_but_dropped :
    useSignatureOnlyForSize bodyArgs bodyReturns bodyBody = true ∧
    (annotatedDocDefs.filterMap fun d =>
      match d.details with
      | .function fd => Option.some (functionModifiersJson fd.modifiers)
      | _ => Option.none) =
      [Json.obj [("is_async", .bool false), ("is_generator", .bool false),
                 ("is_static", .bool false), ("is_abstract", .bool false),
                 ("is_constructor", .bool false), ("is_di_wired", .bool false),
                 ("visibility", .str "Public")]] :=
  ⟨rfl, rfl⟩

/-- C10 counterexample: at a plain-name read site whose oracle call
raises, no reference at all is recorded — Read/Write references require a
resolved Variable or external target, so the site's reference is dropped
rather than recorded with `target_symbol` unset. -/
theorem failing_oracle_read_site_drops_reference :
    (collectReferences "m.py" [] "m" failingScript bareReadTree).references = [] := rfl


/-! ## Step algebra -/

theorem Step.zero (env : R2Env) (spans : List (Nat × Nat × String)) (cov : Prop)
    (st : R2State) : Step env spans cov st st [] 0 :=
  ⟨[], [], by simp, by simp, by simp, by simp, by simp, by simp⟩

theorem Step.ofEq (env : R2Env) (spans : List (Nat × Nat × String)) (cov : Prop)
    (st out : R2State) (h : out = st) : Step env spans cov st out [] 0 := by
  rw [h]; exact Step.zero env spans cov st

theorem Step.trans {env : R2Env} {spans : List (Nat × Nat × String)} {cov : Prop}
    {st st1 out : R2State} {d1 d2 : List String} {c1 c2 : Nat}
    (h1 : Step env spans cov st st1 d1 c1) (h2 : Step env spans cov st1 out d2 c2) :
    Step env spans cov st out (d1 ++ d2) (c1 + c2) := by
  obtain ⟨rs1, es1, hr1, he1, hg1, hc1, hd1, hn1⟩ := h1
  obtain ⟨rs2, es2, hr2, he2, hg2, hc2, hd2, hn2⟩ := h2
  refine ⟨rs1 ++ rs2, es1 ++ es2, ?_, ?_, ?_, ?_, ?_, ?_⟩
  · rw [hr2, hr1, List.append_assoc]
  · rw [he2, he1, List.append_assoc]
  · intro r hr
    rcases List.mem_append.mp hr with h | h
    · intro hrole
      obtain ⟨ts, ha, hb, hc⟩ := hg1 r h hrole
      refine ⟨ts, ha, hb, hc.imp id ?_⟩
      rintro ⟨d, hd, hx⟩
      exact ⟨d, by rw [he2]; exact List.mem_append_left _ hd, hx⟩
    · exact hg2 r h
  · intro hsp hcov r hr
    rcases List.mem_append.mp hr with h | h
    · exact hc1 hsp hcov r h
    · exact hc2 hsp hcov r h
  · rw [List.filterMap_append, hd1, hd2]
  · intro a b c
    rw [List.countP_append, hn1 a b c, hn2 a b c]

theorem Step.covMono {env : R2Env} {spans : List (Nat × Nat × String)}
    {cov cov2 : Prop} {st out : R2State} {d : List String} {c : Nat}
    (himp : cov2 → cov) (h : Step env spans cov st out d c) :
    Step env spans cov2 st out d c := by
  obtain ⟨rs, es, hr, he, hg, hc, hd, hn⟩ := h
  exact ⟨rs, es, hr, he, hg, fun hsp hcov => hc hsp (himp hcov), hd, hn⟩

theorem Step.congrOut {env : R2Env} {spans : List (Nat × Nat × String)} {cov : Prop}
    {st out : R2State} {d d2 : List String} {c c2 : Nat}
    (hd : d = d2) (hc : c = c2) (h : Step env spans cov st out d c) :
    Step env spans cov st out d2 c2 := hd ▸ hc ▸ h

theorem Step.pushSpan {env : R2Env} {spans : List (Nat × Nat × String)} {cov : Prop}
    {st out : R2State} {d : List String} {c : Nat} {newSpan : Nat × Nat × String}
    (hgood : (∀ t ∈ spans, EncGoodStr env.allDefinitions env.moduleSymbolId t.2.2) →
      cov → EncGoodStr env.allDefinitions env.moduleSymbolId newSpan.2.2)
    (hne : env.moduleSymbolId ≠ "" → (∀ d ∈ env.allDefinitions, d.symbol_id ≠ "") →
      newSpan.2.2 ≠ "")
    (h : Step env (newSpan :: spans) cov st out d c) :
    Step env spans cov st out d c := by
  obtain ⟨rs, es, hr, he, hg, hc, hd, hn⟩ := h
  refine ⟨rs, es, hr, he, hg, ?_, hd, ?_⟩
  · intro hsp hcov
    refine hc ?_ hcov
    intro t ht
    rcases List.mem_cons.mp ht with h | h
    · subst h; exact hgood hsp hcov
    · exact hsp t h
  · intro a b cc
    refine hn a b ?_
    intro t ht
    rcases List.mem_cons.mp ht with h | h
    · subst h; exact hne a b
    · exact cc t h

theorem Step.pushRef (env : R2Env) (spans : List (Nat × Nat × String)) (cov : Prop)
    (st : R2State) (r : SymbolReference)
    (hrw : RWGood env.allDefinitions st.externals r)
    (henc : (∀ t ∈ spans, EncGoodStr env.allDefinitions env.moduleSymbolId t.2.2) →
      cov → EncGoodStr env.allDefinitions env.moduleSymbolId r.enclosing_symbol) :
    Step env spans cov st { references := st.references ++ [r], externals := st.externals }
      ((decorateEnc r).toList)
      (if r.role = ReferenceRole.Call then 1 else 0) := by
  refine ⟨[r], [], rfl, by simp, ?_, ?_, ?_, ?_⟩
  · intro x hx
    rw [List.mem_singleton] at hx
    subst hx; exact hrw
  · intro hsp hcov x hx
    rw [List.mem_singleton] at hx
    subst hx; exact henc hsp hcov
  · cases h : decorateEnc r <;> simp [List.filterMap, h]
  · intro _ _ _
    simp [List.countP, List.countP.go]

theorem enclosingSymbolAt_good (defs : List SymbolDefinition) (moduleId : String)
    (spans : List (Nat × Nat × String)) (line : Nat)
    (hsp : ∀ t ∈ spans, EncGoodStr defs moduleId t.2.2) :
    EncGoodStr defs moduleId (enclosingSymbolAt spans moduleId line) := by
  induction spans with
  | nil => exact Or.inl rfl
  | cons t rest ih =>
    obtain ⟨a, b, sym⟩ := t
    simp only [enclosingSymbolAt]
    split
    · exact hsp _ (List.mem_cons_self _ _)
    · exact ih fun u hu => hsp u (List.mem_cons_of_mem _ hu)

theorem enclosingSymbolAt_ne (moduleId : String) (spans : List (Nat × Nat × String))
    (line : Nat) (hm : moduleId ≠ "") (hsp : ∀ t ∈ spans, t.2.2 ≠ "") :
    enclosingSymbolAt spans moduleId line ≠ "" := by
  induction spans with
  | nil => exact hm
  | cons t rest ih =>
    obtain ⟨a, b, sym⟩ := t
    simp only [enclosingSymbolAt]
    split
    · exact hsp _ (List.mem_cons_self _ _)
    · exact ih fun u hu => hsp u (List.mem_cons_of_mem _ hu)

theorem Step.countOfEncEmpty {env : R2Env} {spans : List (Nat × Nat × String)}
    {cov : Prop} {st out : R2State} {d : List String} {c : Nat} (c2 : Nat) (line : Nat)
    (henc : enclosingSymbolAt spans env.moduleSymbolId line = "")
    (h : Step env spans cov st out d c) : Step env spans cov st out d c2 := by
  obtain ⟨rs, es, hr, he, hg, hc, hd, hn⟩ := h
  refine ⟨rs, es, hr, he, hg, hc, hd, ?_⟩
  intro a b cc
  exact absurd henc (enclosingSymbolAt_ne env.moduleSymbolId spans line a cc)

theorem step_collectExternalSymbol (env : R2Env) (spans : List (Nat × Nat × String))
    (cov : Prop) (st : R2State) (t : String) (j : JediName) :
    Step env spans cov st (collectExternalSymbol st t j) [] 0 := by
  unfold collectExternalSymbol
  split
  · exact Step.zero env spans cov st
  · split
    · exact Step.zero env spans cov st
    · split
      · exact Step.zero env spans cov st
      · exact ⟨[], [_], by simp, rfl, by simp, by simp, by simp, by simp⟩

theorem step_resolveSite (env : R2Env) (spans : List (Nat × Nat × String)) (cov : Prop)
    (st : R2State) (l c : Nat) :
    Step env spans cov st (resolveSite env st l c).2 [] 0 := by
  unfold resolveSite
  cases hres : env.resolve l c with
  | nil => exact Step.zero env spans cov st
  | cons j rest =>
    dsimp only
    by_cases h1 : optStrTruthy (definitionSymbolIdFromJedi env.allDefinitions (Option.some j)) = true
    · rw [if_pos h1]
      exact Step.zero env spans cov st
    · rw [if_neg h1]
      cases hfn : fullNameFromJedi (Option.some j) with
      | none => exact Step.zero env spans cov st
      | some fs =>
        dsimp only
        by_cases h2 : fs = ""
        · rw [if_pos h2]
          exact Step.zero env spans cov st
        · rw [if_neg h2]
          exact step_collectExternalSymbol env spans cov st _ _


theorem RWGood_decorate (defs exts : List SymbolDefinition) (r : SymbolReference)
    (h : r.role = ReferenceRole.Decorate) : RWGood defs exts r := by
  intro hrole
  rcases hrole with hr | hr <;> rw [h] at hr <;> exact absurd hr (by decide)

theorem RWGood_call (defs exts : List SymbolDefinition) (r : SymbolReference)
    (h : r.role = ReferenceRole.Call) : RWGood defs exts r := by
  intro hrole
  rcases hrole with hr | hr <;> rw [h] at hr <;> exact absurd hr (by decide)

theorem step_decorator (env : R2Env) (spans : List (Nat × Nat × String)) (cov : Prop)
    (fid : String) (st : R2State) (d : Expr)
    (hfid : (∀ t ∈ spans, EncGoodStr env.allDefinitions env.moduleSymbolId t.2.2) → cov →
      EncGoodStr env.allDefinitions env.moduleSymbolId fid) :
    Step env spans cov st (r2VisitDecorator env fid st d) [fid] 0 := by
  have hpushed : ∀ (st1 : R2State) (tgt : Option String),
      Step env spans cov st1
        { st1 with references := st1.references ++ [{
            target_symbol := tgt
            location := exprLoc env d.pos
            enclosing_symbol := fid
            role := ReferenceRole.Decorate }] } [fid] 0 := by
    intro st1 tgt
    refine Step.congrOut ?_ ?_ (Step.pushRef env spans cov st1 _ (RWGood_decorate _ _ _ rfl)
      (fun hsp hcov => hfid hsp hcov))
    · simp [decorateEnc]
    · simp
  cases d with
  | name i ictx p =>
    unfold r2VisitDecorator
    dsimp only
    exact Step.congrOut (by simp) (by simp)
      (Step.trans (step_resolveSite env spans cov st p.lineno p.col) (hpushed _ _))
  | attr v an actx p =>
    unfold r2VisitDecorator
    dsimp only
    exact Step.congrOut (by simp) (by simp)
      (Step.trans (step_resolveSite env spans cov st p.lineno p.col) (hpushed _ _))
  | call f args kws p =>
    unfold r2VisitDecorator
    dsimp only
    exact hpushed st Option.none
  | constStr cs p =>
    unfold r2VisitDecorator
    dsimp only
    exact hpushed st Option.none
  | constOther p =>
    unfold r2VisitDecorator
    dsimp only
    exact hpushed st Option.none
  | subscript v sl sctx p =>
    unfold r2VisitDecorator
    dsimp only
    exact hpushed st Option.none
  | tupleE elts tctx p =>
    unfold r2VisitDecorator
    dsimp only
    exact hpushed st Option.none
  | listE elts lctx p =>
    unfold r2VisitDecorator
    dsimp only
    exact hpushed st Option.none
  | yieldE v p =>
    unfold r2VisitDecorator
    dsimp only
    exact hpushed st Option.none

theorem step_decoratorFold (env : R2Env) (spans : List (Nat × Nat × String)) (cov : Prop)
    (fid : String)
    (hfid : (∀ t ∈ spans, EncGoodStr env.allDefinitions env.moduleSymbolId t.2.2) → cov →
      EncGoodStr env.allDefinitions env.moduleSymbolId fid) :
    ∀ (l : List Expr) (st : R2State),
      Step env spans cov st (l.foldl (r2VisitDecorator env fid) st)
        (List.replicate l.length fid) 0 := by
  intro l
  induction l with
  | nil => intro st; exact Step.zero env spans cov st
  | cons d rest ih =>
    intro st
    have h1 := step_decorator env spans cov fid st d hfid
    have h2 := ih (r2VisitDecorator env fid st d)
    exact Step.congrOut (by simp [List.replicate_succ]) (by simp) (Step.trans h1 h2)

theorem concatDot_ne (a b : String) : a ++ "." ++ b ≠ "" := by
  intro h
  have hd : (a ++ "." ++ b).data = ("" : String).data := by rw [h]
  rw [String.data_append, String.data_append] at hd
  simp at hd

theorem findFuncMatch_of_covered (defs : List SymbolDefinition)
    (tent fname relPath : String) (line0 : Nat)
    (h : funcCovered defs relPath fname line0 = true) :
    ∃ d, findFuncMatch defs tent fname relPath line0 = Option.some d ∧ d ∈ defs := by
  rw [funcCovered, List.any_eq_true] at h
  obtain ⟨d, hmem, hp⟩ := h
  have hsome : (findFuncMatch defs tent fname relPath line0).isSome := by
    rw [findFuncMatch, List.find?_isSome]
    exact ⟨d, hmem, by simp only [hp, Bool.or_true]⟩
  obtain ⟨d2, hd2⟩ := Option.isSome_iff_exists.mp hsome
  exact ⟨d2, hd2, List.mem_of_find?_eq_some hd2⟩

theorem funcIdOf_good (defs : List SymbolDefinition) (relPath moduleId : String)
    (spans : List (Nat × Nat × String)) (fname : String) (loc : NodeLoc)
    (h : funcCovered defs relPath fname (loc.lineno - 1) = true) :
    ∃ d ∈ defs, d.symbol_id = funcIdOf defs relPath moduleId spans fname loc := by
  obtain ⟨d, hfind, hmem⟩ := findFuncMatch_of_covered defs
    (enclosingSymbolAt spans moduleId loc.lineno ++ "." ++ fname) fname relPath
    (loc.lineno - 1) h
  exact ⟨d, hmem, by simp [funcIdOf, hfind]⟩

theorem funcIdOf_ne (defs : List SymbolDefinition) (relPath moduleId : String)
    (spans : List (Nat × Nat × String)) (fname : String) (loc : NodeLoc)
    (hids : ∀ d ∈ defs, d.symbol_id ≠ "") :
    funcIdOf defs relPath moduleId spans fname loc ≠ "" := by
  unfold funcIdOf
  dsimp only
  cases hfind : findFuncMatch defs
      (enclosingSymbolAt spans moduleId loc.lineno ++ "." ++ fname) fname relPath
      (loc.lineno - 1) with
  | some d =>
    exact hids d (List.mem_of_find?_eq_some hfind)
  | none =>
    exact concatDot_ne _ _


/-! ## The combined step theorem for the reference collector

One mutual induction over the collector establishes, for every visit:
append-only references/externals, the Read/Write guard, the
enclosing-symbol invariant (under span well-formedness and Pass-1
coverage), the Decorate projection and the Call count. -/

mutual

theorem r2Stmt_step (env : R2Env) (spans : List (Nat × Nat × String)) (st : R2State)
    (s : Stmt) :
    Step env spans (coveredStmt env.allDefinitions env.relPath s = true) st
      (r2Stmt env spans st s)
      (decoSpecStmt env.allDefinitions env.relPath env.moduleSymbolId spans s)
      (callCountStmt s) := by
  cases s with
  | functionDef isAsync fname args body decorators returns loc =>
    refine Step.pushSpan ?_ ?_ (Step.congrOut ?_ ?_
      (Step.trans (Step.trans (Step.trans (Step.trans
        (step_decoratorFold env _ _ _
          (fun hsp _ => hsp _ (List.mem_cons_self _ _)) decorators.toList st)
        (Step.covMono (fun _ => trivial) (r2Args_step env _ _ args)))
        (Step.covMono ?_ (r2Stmts_step env _ _ body)))
        (Step.covMono (fun _ => trivial) (r2Exprs_step env _ _ decorators)))
        (Step.covMono (fun _ => trivial) (r2OptExpr_step env _ _ returns))))
    · intro hsp hcov
      simp only [coveredStmt, Bool.and_eq_true] at hcov
      exact Or.inr (funcIdOf_good env.allDefinitions env.relPath env.moduleSymbolId
        spans fname loc hcov.1)
    · intro _ hids
      exact funcIdOf_ne env.allDefinitions env.relPath env.moduleSymbolId
        spans fname loc hids
    · simp [decoSpecStmt, funcIdOf]
    · simp [callCountStmt]
    · intro h
      simp only [coveredStmt, Bool.and_eq_true] at h
      exact h.2
  | classDef cname bases kws body decorators classSrc loc =>
    refine Step.congrOut ?_ ?_
      (Step.trans (Step.trans (Step.trans
        (Step.covMono (fun _ => trivial) (r2Exprs_step env spans st bases))
        (Step.covMono (fun _ => trivial) (r2Exprs_step env spans _ kws)))
        (Step.covMono ?_ (r2Stmts_step env spans _ body)))
        (Step.covMono (fun _ => trivial) (r2Exprs_step env spans _ decorators)))
    · simp [decoSpecStmt]
    · simp [callCountStmt]
    · intro h
      simpa [coveredStmt] using h
  | assign targets value loc =>
    refine Step.congrOut (by simp [decoSpecStmt]) (by simp [callCountStmt])
      (Step.trans (Step.covMono (fun _ => trivial) (r2Exprs_step env spans st targets))
        (Step.covMono (fun _ => trivial)
          (r2Expr_step env spans (Option.some (targets.toList, loc.lineno)) _ value)))
  | annAssign target annotation value loc =>
    refine Step.congrOut (by simp [decoSpecStmt]) (by simp [callCountStmt])
      (Step.trans (Step.trans
        (Step.covMono (fun _ => trivial) (r2Expr_step env spans Option.none st target))
        (Step.covMono (fun _ => trivial) (r2Expr_step env spans Option.none _ annotation)))
        (Step.covMono (fun _ => trivial) (r2OptExpr_step env spans _ value)))
  | ret value loc =>
    refine Step.congrOut (by simp [decoSpecStmt]) (by simp [callCountStmt])
      (Step.covMono (fun _ => trivial) (r2OptExpr_step env spans st value))
  | passStmt loc => exact Step.zero env spans _ st
  | exprStmt value loc =>
    refine Step.congrOut (by simp [decoSpecStmt]) (by simp [callCountStmt])
      (Step.covMono (fun _ => trivial) (r2Expr_step env spans Option.none st value))

theorem r2Stmts_step (env : R2Env) (spans : List (Nat × Nat × String)) (st : R2State)
    (sl : StmtList) :
    Step env spans (coveredStmts env.allDefinitions env.relPath sl = true) st
      (r2Stmts env spans st sl)
      (decoSpecStmts env.allDefinitions env.relPath env.moduleSymbolId spans sl)
      (callCountStmts sl) := by
  cases sl with
  | nil => exact Step.zero env spans _ st
  | cons shd tl =>
    refine Step.congrOut (by simp [decoSpecStmts]) (by simp [callCountStmts])
      (Step.trans (Step.covMono ?_ (r2Stmt_step env spans st shd))
        (Step.covMono ?_ (r2Stmts_step env spans _ tl)))
    · intro h
      simp only [coveredStmts, Bool.and_eq_true] at h
      exact h.1
    · intro h
      simp only [coveredStmts, Bool.and_eq_true] at h
      exact h.2

theorem r2Expr_step (env : R2Env) (spans : List (Nat × Nat × String))
    (aparent : Option (List Expr × Nat)) (st : R2State) (e : Expr) :
    Step env spans True st (r2Expr env spans aparent st e) [] (callCountExpr e) := by
  cases e with
  | call f args kws p =>
    simp only [r2Expr]
    by_cases henc : enclosingSymbolAt spans env.moduleSymbolId p.lineno = ""
    · rw [if_pos henc]
      refine Step.countOfEncEmpty (callCountExpr (Expr.call f args kws p)) p.lineno henc
        (Step.congrOut (by simp) rfl
          (Step.trans (Step.trans (r2Expr_step env spans Option.none st f)
            (r2Exprs_step env spans _ args)) (r2Exprs_step env spans _ kws)))
    · rw [if_neg henc]
      cases f with
      | name fi fctx fp =>
        dsimp only
        refine Step.congrOut (by simp [decorateEnc]) ?_
          (Step.trans (Step.trans (Step.trans (Step.trans
            (step_resolveSite env spans True st fp.lineno fp.col)
            (Step.pushRef env spans True _ _ (RWGood_call _ _ _ rfl)
              (fun hsp _ => enclosingSymbolAt_good env.allDefinitions env.moduleSymbolId
                spans p.lineno hsp)))
            (r2Expr_step env spans Option.none _ (Expr.name fi fctx fp)))
            (r2Exprs_step env spans _ args))
            (r2Exprs_step env spans _ kws))
        simp [callCountExpr]
        try omega
      | attr v an actx fp =>
        dsimp only
        refine Step.congrOut (by simp [decorateEnc]) ?_
          (Step.trans (Step.trans (Step.trans (Step.trans
            (step_resolveSite env spans True st fp.lineno fp.col)
            (Step.pushRef env spans True _ _ (RWGood_call _ _ _ rfl)
              (fun hsp _ => enclosingSymbolAt_good env.allDefinitions env.moduleSymbolId
                spans p.lineno hsp)))
            (r2Expr_step env spans Option.none _ (Expr.attr v an actx fp)))
            (r2Exprs_step env spans _ args))
            (r2Exprs_step env spans _ kws))
        simp [callCountExpr]
        try omega
      | constStr cs cp =>
        dsimp only
        refine Step.congrOut (by simp [decorateEnc]) ?_
          (Step.trans (Step.trans (Step.trans
            (Step.pushRef env spans True st _ (RWGood_call _ _ _ rfl)
              (fun hsp _ => enclosingSymbolAt_good env.allDefinitions env.moduleSymbolId
                spans p.lineno hsp))
            (r2Expr_step env spans Option.none _ (Expr.constStr cs cp)))
            (r2Exprs_step env spans _ args))
            (r2Exprs_step env spans _ kws))
        simp [callCountExpr]
      | constOther cp =>
        dsimp only
        refine Step.congrOut (by simp [decorateEnc]) ?_
          (Step.trans (Step.trans (Step.trans
            (Step.pushRef env spans True st _ (RWGood_call _ _ _ rfl)
              (fun hsp _ => enclosingSymbolAt_good env.allDefinitions env.moduleSymbolId
                spans p.lineno hsp))
            (r2Expr_step env spans Option.none _ (Expr.constOther cp)))
            (r2Exprs_step env spans _ args))
            (r2Exprs_step env spans _ kws))
        simp [callCountExpr]
      | subscript sv ssl sctx sp =>
        dsimp only
        refine Step.congrOut (by simp [decorateEnc]) ?_
          (Step.trans (Step.trans (Step.trans
            (Step.pushRef env spans True st _ (RWGood_call _ _ _ rfl)
              (fun hsp _ => enclosingSymbolAt_good env.allDefinitions env.moduleSymbolId
                spans p.lineno hsp))
            (r2Expr_step env spans Option.none _ (Expr.subscript sv ssl sctx sp)))
            (r2Exprs_step env spans _ args))
            (r2Exprs_step env spans _ kws))
        simp [callCountExpr]
        try omega
      | tupleE elts tctx tp =>
        dsimp only
        refine Step.congrOut (by simp [decorateEnc]) ?_
          (Step.trans (Step.trans (Step.trans
            (Step.pushRef env spans True st _ (RWGood_call _ _ _ rfl)
              (fun hsp _ => enclosingSymbolAt_good env.allDefinitions env.moduleSymbolId
                spans p.lineno hsp))
            (r2Expr_step env spans Option.none _ (Expr.tupleE elts tctx tp)))
            (r2Exprs_step env spans _ args))
            (r2Exprs_step env spans _ kws))
        simp [callCountExpr]
        try omega
      | listE elts lctx lp =>
        dsimp only
        refine Step.congrOut (by simp [decorateEnc]) ?_
          (Step.trans (Step.trans (Step.trans
            (Step.pushRef env spans True st _ (RWGood_call _ _ _ rfl)
              (fun hsp _ => enclosingSymbolAt_good env.allDefinitions env.moduleSymbolId
                spans p.lineno hsp))
            (r2Expr_step env spans Option.none _ (Expr.listE elts lctx lp)))
            (r2Exprs_step env spans _ args))
            (r2Exprs_step env spans _ kws))
        simp [callCountExpr]
        try omega
      | yieldE yv yp =>
        dsimp only
        refine Step.congrOut (by simp [decorateEnc]) ?_
          (Step.trans (Step.trans (Step.trans
            (Step.pushRef env spans True st _ (RWGood_call _ _ _ rfl)
              (fun hsp _ => enclosingSymbolAt_good env.allDefinitions env.moduleSymbolId
                spans p.lineno hsp))
            (r2Expr_step env spans Option.none _ (Expr.yieldE yv yp)))
            (r2Exprs_step env spans _ args))
            (r2Exprs_step env spans _ kws))
        simp [callCountExpr]
        try omega
      | call cf cargs ckws cp =>
        dsimp only
        refine Step.congrOut (by simp [decorateEnc]) ?_
          (Step.trans (Step.trans (Step.trans
            (Step.pushRef env spans True st _ (RWGood_call _ _ _ rfl)
              (fun hsp _ => enclosingSymbolAt_good env.allDefinitions env.moduleSymbolId
                spans p.lineno hsp))
            (r2Expr_step env spans Option.none _ (Expr.call cf cargs ckws cp)))
            (r2Exprs_step env spans _ args))
            (r2Exprs_step env spans _ kws))
        simp [callCountExpr]
        try omega
  | name i ictx p =>
    simp only [r2Expr]
    by_cases henc : enclosingSymbolAt spans env.moduleSymbolId p.lineno = ""
    · rw [if_pos henc]
      exact Step.zero env spans True st
    · rw [if_neg henc]
      cases ictx with
      | load =>
        dsimp only
        split
        · split
          · exact Step.congrOut rfl (by simp [callCountExpr])
              (step_resolveSite env spans True st p.lineno p.col)
          · split
            next hts hguard =>
              refine Step.congrOut (by simp [decorateEnc]) (by simp [callCountExpr])
                (Step.trans (step_resolveSite env spans True st p.lineno p.col)
                  (Step.pushRef env spans True _ _ ?_
                    (fun hsp _ => enclosingSymbolAt_good env.allDefinitions
                      env.moduleSymbolId spans p.lineno hsp)))
              intro _
              refine ⟨_, rfl, hts, ?_⟩
              simp only [Bool.or_eq_true, List.any_eq_true, Bool.and_eq_true,
                decide_eq_true_eq] at hguard
              exact hguard
            next hts hguard =>
              exact Step.congrOut rfl (by simp [callCountExpr])
                (step_resolveSite env spans True st p.lineno p.col)
        · exact Step.congrOut rfl (by simp [callCountExpr])
            (step_resolveSite env spans True st p.lineno p.col)
      | store =>
        dsimp only
        split
        · split
          · exact Step.congrOut rfl (by simp [callCountExpr])
              (step_resolveSite env spans True st p.lineno p.col)
          · split
            next hts hguard =>
              refine Step.congrOut (by simp [decorateEnc]) (by simp [callCountExpr])
                (Step.trans (step_resolveSite env spans True st p.lineno p.col)
                  (Step.pushRef env spans True _ _ ?_
                    (fun hsp _ => enclosingSymbolAt_good env.allDefinitions
                      env.moduleSymbolId spans p.lineno hsp)))
              intro _
              refine ⟨_, rfl, hts, ?_⟩
              simp only [Bool.or_eq_true, List.any_eq_true, Bool.and_eq_true,
                decide_eq_true_eq] at hguard
              exact hguard
            next hts hguard =>
              exact Step.congrOut rfl (by simp [callCountExpr])
                (step_resolveSite env spans True st p.lineno p.col)
        · exact Step.congrOut rfl (by simp [callCountExpr])
            (step_resolveSite env spans True st p.lineno p.col)
      | del =>
        exact Step.zero env spans True st
  | attr v an actx p =>
    simp only [r2Expr]
    by_cases henc : enclosingSymbolAt spans env.moduleSymbolId p.lineno = ""
    · rw [if_pos henc]
      exact Step.congrOut rfl (by simp [callCountExpr])
        (r2Expr_step env spans Option.none st v)
    · rw [if_neg henc]
      cases actx with
      | load =>
        dsimp only
        split
        · split
          · exact Step.congrOut (by simp) (by simp [callCountExpr])
              (Step.trans (step_resolveSite env spans True st p.lineno p.col)
                (r2Expr_step env spans Option.none _ v))
          · split
            next hts hguard =>
              refine Step.congrOut (by simp [decorateEnc]) (by simp [callCountExpr])
                (Step.trans (Step.trans (step_resolveSite env spans True st p.lineno p.col)
                  (Step.pushRef env spans True _ _ ?_
                    (fun hsp _ => enclosingSymbolAt_good env.allDefinitions
                      env.moduleSymbolId spans p.lineno hsp)))
                  (r2Expr_step env spans Option.none _ v))
              intro _
              refine ⟨_, rfl, hts, ?_⟩
              simp only [Bool.or_eq_true, List.any_eq_true, Bool.and_eq_true,
                decide_eq_true_eq] at hguard
              exact hguard
            next hts hguard =>
              exact Step.congrOut (by simp) (by simp [callCountExpr])
                (Step.trans (step_resolveSite env spans True st p.lineno p.col)
                  (r2Expr_step env spans Option.none _ v))
        · exact Step.congrOut (by simp) (by simp [callCountExpr])
            (Step.trans (step_resolveSite env spans True st p.lineno p.col)
              (r2Expr_step env spans Option.none _ v))
      | store =>
        dsimp only
        split
        · split
          · exact Step.congrOut (by simp) (by simp [callCountExpr])
              (Step.trans (step_resolveSite env spans True st p.lineno p.col)
                (r2Expr_step env spans Option.none _ v))
          · split
            next hts hguard =>
              refine Step.congrOut (by simp [decorateEnc]) (by simp [callCountExpr])
                (Step.trans (Step.trans (step_resolveSite env spans True st p.lineno p.col)
                  (Step.pushRef env spans True _ _ ?_
                    (fun hsp _ => enclosingSymbolAt_good env.allDefinitions
                      env.moduleSymbolId spans p.lineno hsp)))
                  (r2Expr_step env spans Option.none _ v))
              intro _
              refine ⟨_, rfl, hts, ?_⟩
              simp only [Bool.or_eq_true, List.any_eq_true, Bool.and_eq_true,
                decide_eq_true_eq] at hguard
              exact hguard
            next hts hguard =>
              exact Step.congrOut (by simp) (by simp [callCountExpr])
                (Step.trans (step_resolveSite env spans True st p.lineno p.col)
                  (r2Expr_step env spans Option.none _ v))
        · exact Step.congrOut (by simp) (by simp [callCountExpr])
            (Step.trans (step_resolveSite env spans True st p.lineno p.col)
              (r2Expr_step env spans Option.none _ v))
      | del =>
        exact Step.congrOut rfl (by simp [callCountExpr])
          (r2Expr_step env spans Option.none st v)
  | constStr cs p => exact Step.zero env spans True st
  | constOther p => exact Step.zero env spans True st
  | subscript sv ssl sctx p =>
    refine Step.congrOut (by simp) (by simp [callCountExpr])
      (Step.trans (r2Expr_step env spans Option.none st sv)
        (r2Expr_step env spans Option.none _ ssl))
  | tupleE elts tctx p =>
    exact Step.congrOut rfl (by simp [callCountExpr]) (r2Exprs_step env spans st elts)
  | listE elts lctx p =>
    exact Step.congrOut rfl (by simp [callCountExpr]) (r2Exprs_step env spans st elts)
  | yieldE yv p =>
    exact Step.congrOut rfl (by simp [callCountExpr]) (r2OptExpr_step env spans st yv)

theorem r2Exprs_step (env : R2Env) (spans : List (Nat × Nat × String)) (st : R2State)
    (es : ExprList) :
    Step env spans True st (r2Exprs env spans st es) [] (callCountExprs es) := by
  cases es with
  | nil => exact Step.zero env spans True st
  | cons e tl =>
    exact Step.congrOut (by simp) (by simp [callCountExprs])
      (Step.trans (r2Expr_step env spans Option.none st e)
        (r2Exprs_step env spans _ tl))

theorem r2OptExpr_step (env : R2Env) (spans : List (Nat × Nat × String)) (st : R2State)
    (oe : OptExpr) :
    Step env spans True st (r2OptExpr env spans st oe) [] (callCountOptExpr oe) := by
  cases oe with
  | none => exact Step.zero env spans True st
  | some e =>
    exact Step.congrOut rfl (by simp [callCountOptExpr])
      (r2Expr_step env spans Option.none st e)

theorem r2Args_step (env : R2Env) (spans : List (Nat × Nat × String)) (st : R2State)
    (a : PyArguments) :
    Step env spans True st (r2Args env spans st a) [] (callCountArgs a) := by
  cases a with
  | mk posonly args va kwonly kwDefaults kwa defaults =>
    refine Step.congrOut (by simp) ?_
      (Step.trans (Step.trans (Step.trans (Step.trans (Step.trans (Step.trans
        (r2ArgList_step env spans st posonly)
        (r2ArgList_step env spans _ args))
        (r2OptArg_step env spans _ va))
        (r2ArgList_step env spans _ kwonly))
        (r2Exprs_step env spans _ kwDefaults))
        (r2OptArg_step env spans _ kwa))
        (r2Exprs_step env spans _ defaults))
    simp [callCountArgs]
    try omega

theorem r2ArgList_step (env : R2Env) (spans : List (Nat × Nat × String)) (st : R2State)
    (al : PyArgList) :
    Step env spans True st (r2ArgList env spans st al) [] (callCountArgList al) := by
  cases al with
  | nil => exact Step.zero env spans True st
  | cons a tl =>
    exact Step.congrOut (by simp) (by simp [callCountArgList])
      (Step.trans (r2OptExpr_step env spans st a.annotation)
        (r2ArgList_step env spans _ tl))

theorem r2OptArg_step (env : R2Env) (spans : List (Nat × Nat × String)) (st : R2State)
    (oa : OptPyArg) :
    Step env spans True st (r2OptArg env spans st oa) [] (callCountOptArg oa) := by
  cases oa with
  | none => exact Step.zero env spans True st
  | some a =>
    exact Step.congrOut rfl (by simp [callCountOptArg])
      (r2OptExpr_step env spans st a.annotation)

end


/-! ## Pass-1 invariants

Soundness of the produced definitions (symbol-id shape; origins of
Variable-kind definitions) and coverage (every function node has a
matching record). -/

/-- The shape facts of one freshly appended definition: its symbol id is
the scope prefix joined to its name; a dot-free declaration gives a
dot-free name; Variable-kind definitions arise only from the recorded
declaration forms. -/
def P1DefOk (fdepth : Nat) (inClass : Bool) (s : Stmt) (d : SymbolDefinition) : Prop :=
  (∃ pref, d.symbol_id = pref ++ "." ++ d.name) ∧
  (dotFreeStmt s = true → noDot d.name = true) ∧
  (d.kind = SymbolKind.Variable → declaresVarStmt d.name fdepth inClass s = true)

theorem p1AssignTarget_sound (filePath modId : String) (cstack : List (String × String))
    (fdepth : Nat) (loc : NodeLoc) (st : P1State) (t : Expr) :
    ∀ d ∈ (p1AssignTarget filePath modId cstack fdepth loc st t).defs,
      d ∈ st.defs ∨
        ((∃ pref, d.symbol_id = pref ++ "." ++ d.name) ∧
         ((match t with
           | .name tid _ _ => noDot tid
           | .attr _ attrId _ _ => noDot attrId
           | _ => true) = true → noDot d.name = true) ∧
         (d.kind = SymbolKind.Variable →
           declaresVarTarget d.name fdepth (!cstack.isEmpty) t = true)) := by
  intro d hd
  cases t with
  | name tid tctx tp =>
    by_cases hf : fdepth > 0
    · simp only [p1AssignTarget, if_pos hf] at hd
      exact Or.inl hd
    · simp only [p1AssignTarget, if_neg hf] at hd
      have hf0 : fdepth = 0 := by omega
      cases cstack with
      | cons c rest =>
        obtain ⟨cn, cid⟩ := c
        dsimp only at hd
        rcases List.mem_append.mp hd with h | h
        · exact Or.inl h
        · rw [List.mem_singleton] at h
          subst h
          refine Or.inr ⟨⟨cid, rfl⟩, fun hnd => hnd, fun _ => ?_⟩
          simp [declaresVarTarget, hf0, mkVariableDefinition]
      | nil =>
        dsimp only at hd
        rcases List.mem_append.mp hd with h | h
        · exact Or.inl h
        · rw [List.mem_singleton] at h
          subst h
          refine Or.inr ⟨⟨modId, rfl⟩, fun hnd => hnd, fun _ => ?_⟩
          simp [declaresVarTarget, hf0, mkVariableDefinition]
  | attr v attrId actx ap =>
    cases v with
    | name recv rctx rp =>
      simp only [p1AssignTarget] at hd
      split at hd
      next hcond =>
        cases cstack with
        | cons c rest =>
          obtain ⟨cn, cid⟩ := c
          dsimp only at hd
          split at hd
          · exact Or.inl hd
          · rcases List.mem_append.mp hd with h | h
            · exact Or.inl h
            · rw [List.mem_singleton] at h
              subst h
              refine Or.inr ⟨⟨cid, rfl⟩, fun hnd => hnd, fun _ => ?_⟩
              rw [Bool.and_eq_true] at hcond
              simp [declaresVarTarget, hcond.1, hcond.2, mkVariableDefinition]
        | nil => exact Or.inl hd
      next => exact Or.inl hd
    | attr v2 a2 c2 p2 => exact Or.inl hd
    | call cf ca ck cp => exact Or.inl hd
    | constStr cs cp => exact Or.inl hd
    | constOther cp => exact Or.inl hd
    | subscript sv sl sc sp => exact Or.inl hd
    | tupleE te tc tp => exact Or.inl hd
    | listE le lc lp => exact Or.inl hd
    | yieldE ye yp => exact Or.inl hd
  | call cf ca ck cp => exact Or.inl hd
  | constStr cs cp => exact Or.inl hd
  | constOther cp => exact Or.inl hd
  | subscript sv sl sc sp => exact Or.inl hd
  | tupleE te tc tp => exact Or.inl hd
  | listE le lc lp => exact Or.inl hd
  | yieldE ye yp => exact Or.inl hd


theorem p1AssignTargets_sound (filePath modId : String) (cstack : List (String × String))
    (fdepth : Nat) (loc : NodeLoc) :
    ∀ (ts : List Expr) (st : P1State),
      ∀ d ∈ (p1AssignTargets filePath modId cstack fdepth loc st ts).defs,
        d ∈ st.defs ∨
          ((∃ pref, d.symbol_id = pref ++ "." ++ d.name) ∧
           ((ts.all fun t =>
               match t with
               | .name tid _ _ => noDot tid
               | .attr _ attrId _ _ => noDot attrId
               | _ => true) = true → noDot d.name = true) ∧
           (d.kind = SymbolKind.Variable →
             (ts.any (declaresVarTarget d.name fdepth (!cstack.isEmpty))) = true)) := by
  intro ts
  induction ts with
  | nil => intro st d hd; exact Or.inl hd
  | cons t rest ih =>
    intro st d hd
    rcases ih (p1AssignTarget filePath modId cstack fdepth loc st t) d hd with h | h
    · rcases p1AssignTarget_sound filePath modId cstack fdepth loc st t d h with h2 | h2
      · exact Or.inl h2
      · obtain ⟨hs, hnd, hv⟩ := h2
        refine Or.inr ⟨hs, ?_, ?_⟩
        · intro hall
          rw [List.all_cons, Bool.and_eq_true] at hall
          exact hnd hall.1
        · intro hk
          rw [List.any_cons, Bool.or_eq_true]
          exact Or.inl (hv hk)
    · obtain ⟨hs, hnd, hv⟩ := h
      refine Or.inr ⟨hs, ?_, ?_⟩
      · intro hall
        rw [List.all_cons, Bool.and_eq_true] at hall
        exact hnd hall.2
      · intro hk
        rw [List.any_cons, Bool.or_eq_true]
        exact Or.inr (hv hk)

theorem p1AnnAssign_sound (filePath modId : String) (cstack : List (String × String))
    (fdepth : Nat) (loc : NodeLoc) (st : P1State) (t annotation : Expr) :
    ∀ d ∈ (p1AnnAssign filePath modId cstack fdepth loc st t annotation).defs,
      d ∈ st.defs ∨
        ((∃ pref, d.symbol_id = pref ++ "." ++ d.name) ∧
         ((match t with
           | .name tid _ _ => noDot tid
           | .attr _ attrId _ _ => noDot attrId
           | _ => true) = true → noDot d.name = true) ∧
         (d.kind = SymbolKind.Variable →
           declaresVarTarget d.name fdepth (!cstack.isEmpty) t = true)) := by
  intro d hd
  cases t with
  | name tid tctx tp =>
    by_cases hf : fdepth > 0
    · simp only [p1AnnAssign, if_pos hf] at hd
      exact Or.inl hd
    · simp only [p1AnnAssign, if_neg hf] at hd
      have hf0 : fdepth = 0 := by omega
      cases cstack with
      | cons c rest =>
        obtain ⟨cn, cid⟩ := c
        dsimp only at hd
        rcases List.mem_append.mp hd with h | h
        · exact Or.inl h
        · rw [List.mem_singleton] at h
          subst h
          refine Or.inr ⟨⟨cid, rfl⟩, fun hnd => hnd, fun _ => ?_⟩
          simp [declaresVarTarget, hf0, mkVariableDefinition]
      | nil =>
        dsimp only at hd
        rcases List.mem_append.mp hd with h | h
        · exact Or.inl h
        · rw [List.mem_singleton] at h
          subst h
          refine Or.inr ⟨⟨modId, rfl⟩, fun hnd => hnd, fun _ => ?_⟩
          simp [declaresVarTarget, hf0, mkVariableDefinition]
  | attr v attrId actx ap =>
    cases v with
    | name recv rctx rp =>
      simp only [p1AnnAssign] at hd
      split at hd
      next hcond =>
        cases cstack with
        | cons c rest =>
          obtain ⟨cn, cid⟩ := c
          dsimp only at hd
          split at hd
          · exact Or.inl hd
          · rcases List.mem_append.mp hd with h | h
            · exact Or.inl h
            · rw [List.mem_singleton] at h
              subst h
              refine Or.inr ⟨⟨cid, rfl⟩, fun hnd => hnd, fun _ => ?_⟩
              rw [Bool.and_eq_true] at hcond
              simp [declaresVarTarget, hcond.1, hcond.2, mkVariableDefinition]
        | nil => exact Or.inl hd
      next => exact Or.inl hd
    | attr v2 a2 c2 p2 => exact Or.inl hd
    | call cf ca ck cp => exact Or.inl hd
    | constStr cs cp => exact Or.inl hd
    | constOther cp => exact Or.inl hd
    | subscript sv sl sc sp => exact Or.inl hd
    | tupleE te tc tp => exact Or.inl hd
    | listE le lc lp => exact Or.inl hd
    | yieldE ye yp => exact Or.inl hd
  | call cf ca ck cp => exact Or.inl hd
  | constStr cs cp => exact Or.inl hd
  | constOther cp => exact Or.inl hd
  | subscript sv sl sc sp => exact Or.inl hd
  | tupleE te tc tp => exact Or.inl hd
  | listE le lc lp => exact Or.inl hd
  | yieldE ye yp => exact Or.inl hd

mutual

/-- Soundness of Pass 1: every produced definition was already present or
satisfies the shape facts for the statement that produced it. -/
theorem p1Stmt_sound (filePath modId : String) (srcLines : List String)
    (cstack : List (String × String)) (fdepth : Nat) (st : P1State) (s : Stmt) :
    ∀ d ∈ (p1Stmt filePath modId srcLines cstack fdepth st s).defs,
      d ∈ st.defs ∨ P1DefOk fdepth (!cstack.isEmpty) s d := by
  cases s with
  | functionDef isAsync fname args body decorators returns loc =>
    intro d hd
    simp only [p1Stmt] at hd
    rcases p1Stmts_sound filePath modId srcLines cstack (fdepth + 1)
        { defs := st.defs ++ [_], fields := st.fields } body d hd with h | h
    · rcases List.mem_append.mp h with h2 | h2
      · exact Or.inl h2
      · rw [List.mem_singleton] at h2
        subst h2
        refine Or.inr ⟨⟨currentScopeId modId cstack, rfl⟩, ?_, ?_⟩
        · intro hdf
          simp only [dotFreeStmt, Bool.and_eq_true] at hdf
          exact hdf.1
        · intro hk
          exact absurd hk (by simp)
    · obtain ⟨hs, hnd, hv⟩ := h
      refine Or.inr ⟨hs, ?_, ?_⟩
      · intro hdf
        simp only [dotFreeStmt, Bool.and_eq_true] at hdf
        exact hnd hdf.2
      · intro hk
        simpa [declaresVarStmt] using hv hk
  | classDef cname bases kws body decorators classSrc loc =>
    intro d hd
    simp only [p1Stmt] at hd
    rcases List.mem_append.mp hd with h | h
    · rcases List.mem_append.mp h with h2 | h2
      · exact Or.inl h2
      · rw [List.mem_singleton] at h2
        subst h2
        refine Or.inr ⟨⟨currentScopeId modId cstack, rfl⟩, ?_, ?_⟩
        · intro hdf
          simp only [dotFreeStmt, Bool.and_eq_true] at hdf
          exact hdf.1
        · intro hk
          exact absurd hk (by simp)
    · rcases p1Stmts_sound filePath modId srcLines ((cname,
          currentScopeId modId cstack ++ "." ++ cname) :: cstack) fdepth
          { defs := [], fields := [] } body d h with h2 | h2
      · exact absurd h2 (by simp)
      · obtain ⟨hs, hnd, hv⟩ := h2
        refine Or.inr ⟨hs, ?_, ?_⟩
        · intro hdf
          simp only [dotFreeStmt, Bool.and_eq_true] at hdf
          exact hnd hdf.2
        · intro hk
          simpa [declaresVarStmt] using hv hk
  | assign targets value loc =>
    intro d hd
    simp only [p1Stmt] at hd
    rcases p1AssignTargets_sound filePath modId cstack fdepth loc targets.toList st d hd
      with h | h
    · exact Or.inl h
    · obtain ⟨hs, hnd, hv⟩ := h
      refine Or.inr ⟨hs, ?_, ?_⟩
      · intro hdf
        simp only [dotFreeStmt] at hdf
        exact hnd hdf
      · intro hk
        simpa [declaresVarStmt] using hv hk
  | annAssign target annotation value loc =>
    intro d hd
    simp only [p1Stmt] at hd
    rcases p1AnnAssign_sound filePath modId cstack fdepth loc st target annotation d hd
      with h | h
    · exact Or.inl h
    · obtain ⟨hs, hnd, hv⟩ := h
      refine Or.inr ⟨hs, ?_, ?_⟩
      · intro hdf
        simp only [dotFreeStmt] at hdf
        exact hnd hdf
      · intro hk
        simpa [declaresVarStmt] using hv hk
  | ret value loc => intro d hd; exact Or.inl hd
  | passStmt loc => intro d hd; exact Or.inl hd
  | exprStmt value loc => intro d hd; exact Or.inl hd

theorem p1Stmts_sound (filePath modId : String) (srcLines : List String)
    (cstack : List (String × String)) (fdepth : Nat) (st : P1State) (sl : StmtList) :
    ∀ d ∈ (p1Stmts filePath modId srcLines cstack fdepth st sl).defs,
      d ∈ st.defs ∨
        ((∃ pref, d.symbol_id = pref ++ "." ++ d.name) ∧
         (dotFreeStmts sl = true → noDot d.name = true) ∧
         (d.kind = SymbolKind.Variable →
           declaresVarStmts d.name fdepth (!cstack.isEmpty) sl = true)) := by
  cases sl with
  | nil => intro d hd; exact Or.inl hd
  | cons shd tl =>
    intro d hd
    rcases p1Stmts_sound filePath modId srcLines cstack fdepth
        (p1Stmt filePath modId srcLines cstack fdepth st shd) tl d hd with h | h
    · rcases p1Stmt_sound filePath modId srcLines cstack fdepth st shd d h with h2 | h2
      · exact Or.inl h2
      · obtain ⟨hs, hnd, hv⟩ := h2
        refine Or.inr ⟨hs, ?_, ?_⟩
        · intro hdf
          simp only [dotFreeStmts, Bool.and_eq_true] at hdf
          exact hnd hdf.1
        · intro hk
          simp only [declaresVarStmts, Bool.or_eq_true]
          exact Or.inl (hv hk)
    · obtain ⟨hs, hnd, hv⟩ := h
      refine Or.inr ⟨hs, ?_, ?_⟩
      · intro hdf
        simp only [dotFreeStmts, Bool.and_eq_true] at hdf
        exact hnd hdf.2
      · intro hk
        simp only [declaresVarStmts, Bool.or_eq_true]
        exact Or.inr (hv hk)

end


/-! ## Pass-1 growth and coverage

The definition table only grows during Pass 1, and after processing a
statement every function node of that statement has a matching record —
the inputs to the enclosing-symbol invariant. -/

theorem p1AssignTarget_defsSubset (filePath modId : String)
    (cstack : List (String × String)) (fdepth : Nat) (loc : NodeLoc) (st : P1State)
    (t : Expr) :
    ∀ d ∈ st.defs, d ∈ (p1AssignTarget filePath modId cstack fdepth loc st t).defs := by
  intro d hd
  cases t with
  | name tid tctx tp =>
    by_cases hf : fdepth > 0
    · simp only [p1AssignTarget, if_pos hf]; exact hd
    · simp only [p1AssignTarget, if_neg hf]
      cases cstack with
      | cons c rest =>
        obtain ⟨cn, cid⟩ := c
        exact List.mem_append_left _ hd
      | nil => exact List.mem_append_left _ hd
  | attr v attrId actx ap =>
    cases v with
    | name recv rctx rp =>
      simp only [p1AssignTarget]
      split
      · cases cstack with
        | cons c rest =>
          obtain ⟨cn, cid⟩ := c
          dsimp only
          split
          · exact hd
          · exact List.mem_append_left _ hd
        | nil => exact hd
      · exact hd
    | attr v2 a2 c2 p2 => exact hd
    | call cf ca ck cp => exact hd
    | constStr cs cp => exact hd
    | constOther cp => exact hd
    | subscript sv sl sc sp => exact hd
    | tupleE te tc tp => exact hd
    | listE le lc lp => exact hd
    | yieldE ye yp => exact hd
  | call cf ca ck cp => exact hd
  | constStr cs cp => exact hd
  | constOther cp => exact hd
  | subscript sv sl sc sp => exact hd
  | tupleE te tc tp => exact hd
  | listE le lc lp => exact hd
  | yieldE ye yp => exact hd

theorem p1AssignTargets_defsSubset (filePath modId : String)
    (cstack : List (String × String)) (fdepth : Nat) (loc : NodeLoc) :
    ∀ (ts : List Expr) (st : P1State), ∀ d ∈ st.defs,
      d ∈ (p1AssignTargets filePath modId cstack fdepth loc st ts).defs := by
  intro ts
  induction ts with
  | nil => intro st d hd; exact hd
  | cons t rest ih =>
    intro st d hd
    exact ih _ d (p1AssignTarget_defsSubset filePath modId cstack fdepth loc st t d hd)

theorem p1AnnAssign_defsSubset (filePath modId : String)
    (cstack : List (String × String)) (fdepth : Nat) (loc : NodeLoc) (st : P1State)
    (t annotation : Expr) :
    ∀ d ∈ st.defs, d ∈ (p1AnnAssign filePath modId cstack fdepth loc st t annotation).defs := by
  intro d hd
  cases t with
  | name tid tctx tp =>
    by_cases hf : fdepth > 0
    · simp only [p1AnnAssign, if_pos hf]; exact hd
    · simp only [p1AnnAssign, if_neg hf]
      cases cstack with
      | cons c rest =>
        obtain ⟨cn, cid⟩ := c
        exact List.mem_append_left _ hd
      | nil => exact List.mem_append_left _ hd
  | attr v attrId actx ap =>
    cases v with
    | name recv rctx rp =>
      simp only [p1AnnAssign]
      split
      · cases cstack with
        | cons c rest =>
          obtain ⟨cn, cid⟩ := c
          dsimp only
          split
          · exact hd
          · exact List.mem_append_left _ hd
        | nil => exact hd
      · exact hd
    | attr v2 a2 c2 p2 => exact hd
    | call cf ca ck cp => exact hd
    | constStr cs cp => exact hd
    | constOther cp => exact hd
    | subscript sv sl sc sp => exact hd
    | tupleE te tc tp => exact hd
    | listE le lc lp => exact hd
    | yieldE ye yp => exact hd
  | call cf ca ck cp => exact hd
  | constStr cs cp => exact hd
  | constOther cp => exact hd
  | subscript sv sl sc sp => exact hd
  | tupleE te tc tp => exact hd
  | listE le lc lp => exact hd
  | yieldE ye yp => exact hd

mutual

/-- The Pass-1 table is append-only: earlier entries remain. -/
theorem p1Stmt_defsSubset (filePath modId : String) (srcLines : List String)
    (cstack : List (String × String)) (fdepth : Nat) (st : P1State) (s : Stmt) :
    ∀ d ∈ st.defs, d ∈ (p1Stmt filePath modId srcLines cstack fdepth st s).defs := by
  cases s with
  | functionDef isAsync fname args body decorators returns loc =>
    intro d hd
    simp only [p1Stmt]
    exact p1Stmts_defsSubset filePath modId srcLines cstack (fdepth + 1) _ body d
      (List.mem_append_left _ hd)
  | classDef cname bases kws body decorators classSrc loc =>
    intro d hd
    simp only [p1Stmt]
    exact List.mem_append_left _ (List.mem_append_left _ hd)
  | assign targets value loc =>
    intro d hd
    simp only [p1Stmt]
    exact p1AssignTargets_defsSubset filePath modId cstack fdepth loc targets.toList st d hd
  | annAssign target annotation value loc =>
    intro d hd
    simp only [p1Stmt]
    exact p1AnnAssign_defsSubset filePath modId cstack fdepth loc st target annotation d hd
  | ret value loc => intro d hd; exact hd
  | passStmt loc => intro d hd; exact hd
  | exprStmt value loc => intro d hd; exact hd

theorem p1Stmts_defsSubset (filePath modId : String) (srcLines : List String)
    (cstack : List (String × String)) (fdepth : Nat) (st : P1State) (sl : StmtList) :
    ∀ d ∈ st.defs, d ∈ (p1Stmts filePath modId srcLines cstack fdepth st sl).defs := by
  cases sl with
  | nil => intro d hd; exact hd
  | cons shd tl =>
    intro d hd
    exact p1Stmts_defsSubset filePath modId srcLines cstack fdepth _ tl d
      (p1Stmt_defsSubset filePath modId srcLines cstack fdepth st shd d hd)

end

theorem funcCovered_of_mem (defs : List SymbolDefinition) (relPath fname : String)
    (line0 : Nat) (d : SymbolDefinition) (hmem : d ∈ defs) (h1 : d.name = fname)
    (h2 : d.location.file_path = relPath) (h3 : d.location.line = line0) :
    funcCovered defs relPath fname line0 = true := by
  rw [funcCovered, List.any_eq_true]
  exact ⟨d, hmem, by simp [h1, h2, h3]⟩

theorem funcCovered_mono (defs defs2 : List SymbolDefinition) (relPath fname : String)
    (line0 : Nat) (hsub : ∀ d ∈ defs, d ∈ defs2)
    (h : funcCovered defs relPath fname line0 = true) :
    funcCovered defs2 relPath fname line0 = true := by
  rw [funcCovered, List.any_eq_true] at h ⊢
  obtain ⟨d, hd, hp⟩ := h
  exact ⟨d, hsub d hd, hp⟩

mutual

theorem coveredStmt_mono (defs defs2 : List SymbolDefinition) (relPath : String)
    (hsub : ∀ d ∈ defs, d ∈ defs2) (s : Stmt)
    (h : coveredStmt defs relPath s = true) : coveredStmt defs2 relPath s = true := by
  cases s with
  | functionDef isAsync fname args body decorators returns loc =>
    simp only [coveredStmt, Bool.and_eq_true] at h ⊢
    exact ⟨funcCovered_mono defs defs2 relPath fname (loc.lineno - 1) hsub h.1,
           coveredStmts_mono defs defs2 relPath hsub body h.2⟩
  | classDef cname bases kws body decorators classSrc loc =>
    simp only [coveredStmt] at h ⊢
    exact coveredStmts_mono defs defs2 relPath hsub body h
  | assign targets value loc => rfl
  | annAssign t a v loc => rfl
  | ret v loc => rfl
  | passStmt loc => rfl
  | exprStmt v loc => rfl

theorem coveredStmts_mono (defs defs2 : List SymbolDefinition) (relPath : String)
    (hsub : ∀ d ∈ defs, d ∈ defs2) (sl : StmtList)
    (h : coveredStmts defs relPath sl = true) : coveredStmts defs2 relPath sl = true := by
  cases sl with
  | nil => rfl
  | cons shd tl =>
    simp only [coveredStmts, Bool.and_eq_true] at h ⊢
    exact ⟨coveredStmt_mono defs defs2 relPath hsub shd h.1,
           coveredStmts_mono defs defs2 relPath hsub tl h.2⟩

end

mutual

/-- After Pass 1 processes a statement, every function node in it has a
matching record in the produced table. -/
theorem p1Stmt_covers (filePath modId : String) (srcLines : List String)
    (cstack : List (String × String)) (fdepth : Nat) (st : P1State) (s : Stmt) :
    coveredStmt (p1Stmt filePath modId srcLines cstack fdepth st s).defs filePath s
      = true := by
  cases s with
  | functionDef isAsync fname args body decorators returns loc =>
    simp only [p1Stmt, coveredStmt, Bool.and_eq_true]
    refine ⟨funcCovered_of_mem _ filePath fname (loc.lineno - 1) _
      (p1Stmts_defsSubset filePath modId srcLines cstack (fdepth + 1) _ body _
        (List.mem_append_right _ (List.mem_singleton.mpr rfl))) rfl rfl rfl,
      p1Stmts_covers filePath modId srcLines cstack (fdepth + 1) _ body⟩
  | classDef cname bases kws body decorators classSrc loc =>
    simp only [p1Stmt, coveredStmt]
    exact coveredStmts_mono _ _ filePath (fun d hd => List.mem_append_right _ hd) body
      (p1Stmts_covers filePath modId srcLines ((cname,
        currentScopeId modId cstack ++ "." ++ cname) :: cstack) fdepth
        { defs := [], fields := [] } body)
  | assign targets value loc => rfl
  | annAssign target annotation value loc => rfl
  | ret value loc => rfl
  | passStmt loc => rfl
  | exprStmt value loc => rfl

theorem p1Stmts_covers (filePath modId : String) (srcLines : List String)
    (cstack : List (String × String)) (fdepth : Nat) (st : P1State) (sl : StmtList) :
    coveredStmts (p1Stmts filePath modId srcLines cstack fdepth st sl).defs filePath sl
      = true := by
  cases sl with
  | nil => rfl
  | cons shd tl =>
    simp only [p1Stmts, coveredStmts, Bool.and_eq_true]
    exact ⟨coveredStmt_mono _ _ filePath
        (p1Stmts_defsSubset filePath modId srcLines cstack fdepth _ tl) shd
        (p1Stmt_covers filePath modId srcLines cstack fdepth st shd),
      p1Stmts_covers filePath modId srcLines cstack fdepth _ tl⟩

end

/-- The table produced for one file covers every function node of its
tree. -/
theorem extractDefinitions_covers (relPath : String) (srcLines : List String)
    (tree : StmtList) :
    coveredStmts (extractDefinitions relPath srcLines tree) relPath tree = true :=
  p1Stmts_covers relPath (moduleIdOfRelPath relPath) srcLines [] 0
    { defs := [], fields := [] } tree


/-! ## Claim theorems: general statements from the step invariant -/

/-- C1: every reference produced by the reference collector — run against a
definition table containing this file's Pass-1 output, a non-empty module
id and non-empty recorded symbol ids — carries an `enclosing_symbol` that
is non-empty and is either the module-default id or a recorded
definition's symbol_id. -/
theorem reference_enclosing_symbol_wellformed (relPath modId : String)
    (srcLines : List String) (allDefs : List SymbolDefinition)
    (script : Nat → Nat → Except Unit (List JediName)) (tree : StmtList)
    (hsub : ∀ d ∈ extractDefinitions relPath srcLines tree, d ∈ allDefs)
    (hmod : modId ≠ "") (hids : ∀ d ∈ allDefs, d.symbol_id ≠ "") :
    ∀ r ∈ (collectReferences relPath allDefs modId script tree).references,
      r.enclosing_symbol ≠ "" ∧ EncGoodStr allDefs modId r.enclosing_symbol := by
  intro r hr
  have hcov : coveredStmts allDefs relPath tree = true :=
    coveredStmts_mono (extractDefinitions relPath srcLines tree) allDefs relPath hsub
      tree (extractDefinitions_covers relPath srcLines tree)
  obtain ⟨rs, es, href, hext, hrw, henc, hdeco, hcnt⟩ :=
    r2Stmts_step
      { relPath := relPath, allDefinitions := allDefs, moduleSymbolId := modId,
        resolve := catchResolve script } [] { references := [], externals := [] } tree
  rw [collectReferences] at hr
  rw [href] at hr
  have hr2 : r ∈ rs := by simpa using hr
  have hgood : EncGoodStr allDefs modId r.enclosing_symbol :=
    henc (fun t ht => absurd ht (List.not_mem_nil t)) hcov r hr2
  refine ⟨?_, hgood⟩
  have hgood2 : r.enclosing_symbol = modId ∨
      ∃ d ∈ allDefs, d.symbol_id = r.enclosing_symbol := hgood
  rcases hgood2 with h | ⟨d, hd, hdid⟩
  · rw [h]; exact hmod
  · rw [← hdid]; exact hids d hd

/-- Witness for C1 at the external-call fixture: the Call reference's
enclosing symbol is non-empty and sanctioned. -/
theorem reference_enclosing_symbol_wellformed_witness :
    (extCallRun.references.getD 0 refDummy).enclosing_symbol ≠ "" ∧
    EncGoodStr [] "m" (extCallRun.references.getD 0 refDummy).enclosing_symbol :=
  reference_enclosing_symbol_wellformed "m.py" "m" [] [] (extCallScript "") extCallTree
    (by decide) (by decide) (by decide)
    (extCallRun.references.getD 0 refDummy) (by decide)

/-- C5 (amended): every produced Read or Write reference carries a
resolved, non-empty target that is either a project-local Variable-kind
definition or a synthesized external symbol — the external arm does not
constrain the external's kind (the guard tests `is_external` only). -/
theorem read_write_targets_variable_or_external (relPath modId : String)
    (allDefs : List SymbolDefinition) (script : Nat → Nat → Except Unit (List JediName))
    (tree : StmtList) :
    ∀ r ∈ (collectReferences relPath allDefs modId script tree).references,
      RWGood allDefs (collectReferences relPath allDefs modId script tree).externals r := by
  intro r hr
  obtain ⟨rs, es, href, hext, hrw, henc, hdeco, hcnt⟩ :=
    r2Stmts_step
      { relPath := relPath, allDefinitions := allDefs, moduleSymbolId := modId,
        resolve := catchResolve script } [] { references := [], externals := [] } tree
  rw [collectReferences] at hr
  rw [href] at hr
  have hr2 : r ∈ rs := by simpa using hr
  rw [collectReferences]
  exact hrw r hr2

/-- Witness for C5 at the external-call fixture: the Read reference
emitted for `fetch` satisfies the guard through its external arm. -/
theorem read_write_targets_variable_or_external_witness :
    RWGood [] extCallRun.externals (extCallRun.references.getD 1 refDummy) :=
  read_write_targets_variable_or_external "m.py" "m" [] (extCallScript "") extCallTree
    (extCallRun.references.getD 1 refDummy) (by decide)

/-- C8 (amended): the Decorate projection of the produced references is
exactly one entry per decorator of each function definition, carrying the
decorated function's resolved symbol id; class decorators contribute no
Decorate reference. -/
theorem decorate_references_exactly_function_decorators (relPath modId : String)
    (allDefs : List SymbolDefinition) (script : Nat → Nat → Except Unit (List JediName))
    (tree : StmtList) :
    (collectReferences relPath allDefs modId script tree).references.filterMap decorateEnc
      = decoSpecStmts allDefs relPath modId [] tree := by
  obtain ⟨rs, es, href, hext, hrw, henc, hdeco, hcnt⟩ :=
    r2Stmts_step
      { relPath := relPath, allDefinitions := allDefs, moduleSymbolId := modId,
        resolve := catchResolve script } [] { references := [], externals := [] } tree
  rw [collectReferences, href]
  simpa using hdeco

/-- C10 (amended): a raising oracle is treated exactly as one returning
zero candidates — the runs coincide; call sites still record their
reference (one Call reference per `ast.Call` node), so only Name/Attribute
use sites are affected by a raise. -/
theorem raising_oracle_treated_as_zero_candidates (relPath modId : String)
    (allDefs : List SymbolDefinition) (script : Nat → Nat → Except Unit (List JediName))
    (tree : StmtList) :
    collectReferences relPath allDefs modId script tree =
      collectReferences relPath allDefs modId
        (fun line col => Except.ok (catchResolve script line col)) tree ∧
    (modId ≠ "" → (∀ d ∈ allDefs, d.symbol_id ≠ "") →
      (collectReferences relPath allDefs modId script tree).references.countP
          (fun r => decide (r.role = ReferenceRole.Call)) = callCountStmts tree) := by
  refine ⟨rfl, ?_⟩
  intro hmod hids
  obtain ⟨rs, es, href, hext, hrw, henc, hdeco, hcnt⟩ :=
    r2Stmts_step
      { relPath := relPath, allDefinitions := allDefs, moduleSymbolId := modId,
        resolve := catchResolve script } [] { references := [], externals := [] } tree
  rw [collectReferences, href]
  have h := hcnt hmod hids (fun t ht => absurd ht (List.not_mem_nil t))
  simpa using h

/-- Witness for C10: with an always-raising oracle the external-call
fixture still records its one Call reference. -/
theorem raising_oracle_treated_as_zero_candidates_witness :
    collectReferences "m.py" [] "m" failingScript extCallTree =
      collectReferences "m.py" [] "m"
        (fun line col => Except.ok (catchResolve failingScript line col)) extCallTree ∧
    (collectReferences "m.py" [] "m" failingScript extCallTree).references.countP
        (fun r => decide (r.role = ReferenceRole.Call)) = callCountStmts extCallTree :=
  ⟨(raising_oracle_treated_as_zero_candidates "m.py" "m" [] failingScript extCallTree).1,
   (raising_oracle_treated_as_zero_candidates "m.py" "m" [] failingScript extCallTree).2
     (by decide) (by decide)⟩


/-! ## Dot-delimited symbol ids -/

theorem takeWhile_append_of_all (p : Char → Bool) (xs : List Char) (y : Char)
    (ys : List Char) (hxs : ∀ x ∈ xs, p x = true) (hy : p y = false) :
    (xs ++ y :: ys).takeWhile p = xs := by
  induction xs with
  | nil => simp [List.takeWhile_cons, hy]
  | cons a as ih =>
    have ha := hxs a (List.mem_cons_self a as)
    simp [List.takeWhile_cons, ha, ih (fun x hx => hxs x (List.mem_cons_of_mem a hx))]

theorem dotFree_suffix_unique (xs1 ys1 xs2 ys2 : List Char)
    (h1 : ∀ c ∈ ys1, c ≠ '.') (h2 : ∀ c ∈ ys2, c ≠ '.')
    (heq : xs1 ++ '.' :: ys1 = xs2 ++ '.' :: ys2) : ys1 = ys2 := by
  have hrev : ys1.reverse ++ '.' :: xs1.reverse = ys2.reverse ++ '.' :: xs2.reverse := by
    have h := congrArg List.reverse heq
    simpa [List.reverse_append] using h
  have hTW := congrArg (List.takeWhile fun c => decide (c ≠ '.')) hrev
  rw [takeWhile_append_of_all _ _ _ _
        (fun x hx => by simpa using h1 x (List.mem_reverse.mp hx)) (by decide),
      takeWhile_append_of_all _ _ _ _
        (fun x hx => by simpa using h2 x (List.mem_reverse.mp hx)) (by decide)] at hTW
  have h := congrArg List.reverse hTW
  simpa using h

/-- The component after the joining dot is determined by the whole id,
whenever that component is dot-free. -/
theorem concatDot_suffix_unique (l1 m1 l2 m2 : String)
    (h1 : noDot m1 = true) (h2 : noDot m2 = true)
    (heq : l1 ++ "." ++ m1 = l2 ++ "." ++ m2) : m1 = m2 := by
  simp only [noDot, List.all_eq_true, decide_eq_true_eq] at h1 h2
  have hdata : l1.data ++ '.' :: m1.data = l2.data ++ '.' :: m2.data := by
    have h := congrArg String.data heq
    simpa [String.data_append] using h
  exact String.ext (dotFree_suffix_unique l1.data m1.data l2.data m2.data h1 h2 hdata)

/-! ## Uniqueness of merged external keys -/

theorem dictUpsert_ids_nodup (m : List SymbolDefinition) (e : SymbolDefinition)
    (h : (m.map fun d => d.symbol_id).Nodup) :
    ((dictUpsert m e).map fun d => d.symbol_id).Nodup := by
  rw [dictUpsert]
  split
  next hany =>
    have hmap : ((m.map fun d => if d.symbol_id = e.symbol_id then e else d).map
        fun d => d.symbol_id) = m.map fun d => d.symbol_id := by
      rw [List.map_map]
      refine List.map_congr_left ?_
      intro d hd
      dsimp only [Function.comp]
      split
      next hcd => exact hcd.symm
      next => rfl
    rw [hmap]; exact h
  next hany =>
    simp only [List.map_append, List.map_cons, List.map_nil]
    rw [List.nodup_append]
    refine ⟨h, List.nodup_singleton _, ?_⟩
    intro x hx hx2
    rw [List.mem_singleton] at hx2
    subst hx2
    rw [List.mem_map] at hx
    obtain ⟨d, hd, hdid⟩ := hx
    simp only [List.any_eq_true, decide_eq_true_eq, not_exists, not_and] at hany
    exact hany d hd hdid

theorem dictUpsertAll_ids_nodup (es : List SymbolDefinition) :
    ∀ m : List SymbolDefinition, (m.map fun d => d.symbol_id).Nodup →
      ((dictUpsertAll m es).map fun d => d.symbol_id).Nodup := by
  induction es with
  | nil => intro m h; exact h
  | cons e rest ih => intro m h; exact ih _ (dictUpsert_ids_nodup m e h)

theorem foldl_dictUpsertAll_ids_nodup (runs : List R2State) :
    ∀ m : List SymbolDefinition, (m.map fun d => d.symbol_id).Nodup →
      ((runs.foldl (fun m r => dictUpsertAll m r.externals) m).map
        fun d => d.symbol_id).Nodup := by
  induction runs with
  | nil => intro m h; exact h
  | cons r rest ih => intro m h; exact ih _ (dictUpsertAll_ids_nodup r.externals m h)

/-! ## Remaining claim theorems -/

/-- C4 (amended): nested functions and classes ARE recorded by Pass 1 (see
the counterexample), but a name never declared in a Variable-recording
form — a plain-name assignment target outside all function bodies or a
`self.`/`cls.` attribute target inside a method — yields no Variable-kind
definition, and every Read/Write reference whose target matches no
synthesized external resolves to a Variable-kind definition of some other
name. -/
theorem function_local_names_make_no_variables (relPath modId : String)
    (srcLines : List String) (script : Nat → Nat → Except Unit (List JediName))
    (tree : StmtList) (n : String)
    (hnot : declaresVarStmts n 0 false tree = false) :
    (∀ d ∈ extractDefinitions relPath srcLines tree,
       d.kind = SymbolKind.Variable → d.name ≠ n) ∧
    (∀ r ∈ (collectReferences relPath (extractDefinitions relPath srcLines tree) modId
        script tree).references,
      (r.role = ReferenceRole.Read ∨ r.role = ReferenceRole.Write) →
      ∀ ts, r.target_symbol = Option.some ts →
      (∀ e ∈ (collectReferences relPath (extractDefinitions relPath srcLines tree) modId
          script tree).externals, e.symbol_id ≠ ts) →
      ∃ d ∈ extractDefinitions relPath srcLines tree,
        d.symbol_id = ts ∧ d.kind = SymbolKind.Variable ∧ d.name ≠ n) := by
  have part1 : ∀ d ∈ extractDefinitions relPath srcLines tree,
      d.kind = SymbolKind.Variable → d.name ≠ n := by
    intro d hd hk heq
    rcases p1Stmts_sound relPath (moduleIdOfRelPath relPath) srcLines [] 0
        { defs := [], fields := [] } tree d hd with h | ⟨-, -, hv⟩
    · exact absurd h (by simp)
    · have hv2 := hv hk
      rw [heq] at hv2
      have hv3 : declaresVarStmts n 0 false tree = true := hv2
      rw [hnot] at hv3
      exact absurd hv3 (by decide)
  refine ⟨part1, ?_⟩
  intro r hr hrole ts hts hnoext
  obtain ⟨rs, es, href, hext, hrw, henc, hdeco, hcnt⟩ :=
    r2Stmts_step
      { relPath := relPath, allDefinitions := extractDefinitions relPath srcLines tree,
        moduleSymbolId := modId, resolve := catchResolve script } []
      { references := [], externals := [] } tree
  rw [collectReferences] at hr
  rw [href] at hr
  have hr2 : r ∈ rs := by simpa using hr
  obtain ⟨ts2, hts2, hne, hcase⟩ := hrw r hr2 hrole
  rw [hts] at hts2
  obtain rfl : ts = ts2 := Option.some.inj hts2
  rcases hcase with ⟨d, hd, hdid, hkind⟩ | ⟨e, he, hes, hext2⟩
  · exact ⟨d, hd, hdid, hkind, part1 d hd hkind⟩
  · exact absurd hes (hnoext e he)

/-- Witness for C4: in the local-variable fixture the name `x` (assigned
only inside `f`) is not the name of the recorded module Variable. -/
theorem function_local_names_make_no_variables_witness :
    declaresVarStmts "x" 0 false localVarTree = false ∧
    ((extractDefinitions "m.py" [] localVarTree).getD 0 defDummy).name ≠ "x" :=
  ⟨by decide,
   (function_local_names_make_no_variables "m.py" "m" [] failingScript localVarTree "x"
      (by decide)).1
     ((extractDefinitions "m.py" [] localVarTree).getD 0 defDummy) (by decide) (by decide)⟩

/-- Every document of a run carries the Pass-1 definition list of one of
the input files. -/
theorem runExtract_documents_definitions (projectRoot : String)
    (files : List InputFile) :
    ∀ doc ∈ (runExtract projectRoot files).documents,
      ∃ f ∈ files, doc.definitions = extractDefinitions f.relPath f.srcLines f.tree := by
  intro doc hdoc
  simp only [runExtract] at hdoc
  rw [List.mem_map] at hdoc
  obtain ⟨fp, hfp, hdoc⟩ := hdoc
  obtain ⟨f0, ds, rs⟩ := fp
  have hm := List.of_mem_zip hfp
  have hm2 := List.of_mem_zip hm.2
  obtain ⟨f1, hf1, hds⟩ := List.mem_map.mp hm2.1
  subst hdoc
  exact ⟨f1, hf1, hds.symm⟩

/-- Every Pass-1 definition's symbol id is its scope id joined to its name
with a dot, and under dot-free declared names the name holds no dot. -/
theorem extractDefinitions_id_shape (relPath : String) (srcLines : List String)
    (tree : StmtList) (hdf : dotFreeStmts tree = true) :
    ∀ d ∈ extractDefinitions relPath srcLines tree,
      (∃ q, d.symbol_id = q ++ "." ++ d.name) ∧ noDot d.name = true := by
  intro d hd
  rcases p1Stmts_sound relPath (moduleIdOfRelPath relPath) srcLines [] 0
      { defs := [], fields := [] } tree d hd with h | ⟨⟨q, hq⟩, hnd, -⟩
  · exact absurd h (by simp)
  · exact ⟨⟨q, hq⟩, hnd hdf⟩

/-- C6 (corrected): symbol ids are not unique per run — module-level
re-assignment collides (see the counterexample) — but across ALL files of
a run, under dot-free declared names, any two Pass-1 definitions sharing a
symbol_id carry the same name: ids never collide across distinct names. -/
theorem symbol_id_collision_implies_same_name (projectRoot : String)
    (files : List InputFile)
    (hdf : ∀ f ∈ files, dotFreeStmts f.tree = true) :
    ∀ doc1 ∈ (runExtract projectRoot files).documents,
      ∀ doc2 ∈ (runExtract projectRoot files).documents,
        ∀ d1 ∈ doc1.definitions, ∀ d2 ∈ doc2.definitions,
          d1.symbol_id = d2.symbol_id → d1.name = d2.name := by
  intro doc1 hdoc1 doc2 hdoc2 d1 h1 d2 h2 hid
  obtain ⟨f1, hf1, hdefs1⟩ := runExtract_documents_definitions projectRoot files doc1 hdoc1
  obtain ⟨f2, hf2, hdefs2⟩ := runExtract_documents_definitions projectRoot files doc2 hdoc2
  rw [hdefs1] at h1
  rw [hdefs2] at h2
  obtain ⟨⟨q1, hq1⟩, hn1⟩ := extractDefinitions_id_shape _ _ _ (hdf f1 hf1) d1 h1
  obtain ⟨⟨q2, hq2⟩, hn2⟩ := extractDefinitions_id_shape _ _ _ (hdf f2 hf2) d2 h2
  exact concatDot_suffix_unique q1 d1.name q2 d2.name hn1 hn2 (by rw [← hq1, ← hq2, hid])

/-- Witness for C6 at a run over the re-assignment fixture: the two
colliding definitions of its document carry the same name. -/
theorem symbol_id_collision_implies_same_name_witness :
    (((runExtract "/proj" reassignInputs).documents.getD 0 docDummy).definitions.getD 0
       defDummy).name =
    (((runExtract "/proj" reassignInputs).documents.getD 0 docDummy).definitions.getD 1
       defDummy).name :=
  symbol_id_collision_implies_same_name "/proj" reassignInputs (by decide)
    ((runExtract "/proj" reassignInputs).documents.getD 0 docDummy) (by decide)
    ((runExtract "/proj" reassignInputs).documents.getD 0 docDummy) (by decide)
    (((runExtract "/proj" reassignInputs).documents.getD 0 docDummy).definitions.getD 0
       defDummy) (by decide)
    (((runExtract "/proj" reassignInputs).documents.getD 0 docDummy).definitions.getD 1
       defDummy) (by decide)
    (by decide)

theorem dictUpsert_ids_mem_left (m : List SymbolDefinition) (e : SymbolDefinition)
    (x : String) (h : x ∈ m.map fun d => d.symbol_id) :
    x ∈ (dictUpsert m e).map fun d => d.symbol_id := by
  rw [dictUpsert]
  split
  next hany =>
    have hmap : ((m.map fun d => if d.symbol_id = e.symbol_id then e else d).map
        fun d => d.symbol_id) = m.map fun d => d.symbol_id := by
      rw [List.map_map]
      refine List.map_congr_left ?_
      intro d hd
      dsimp only [Function.comp]
      split
      next hcd => exact hcd.symm
      next => rfl
    rw [hmap]; exact h
  next hany =>
    rw [List.map_append]
    exact List.mem_append_left _ h

theorem dictUpsert_ids_mem_self (m : List SymbolDefinition) (e : SymbolDefinition) :
    e.symbol_id ∈ (dictUpsert m e).map fun d => d.symbol_id := by
  rw [dictUpsert]
  split
  next hany =>
    rw [List.any_eq_true] at hany
    obtain ⟨d, hd, hdid⟩ := hany
    rw [decide_eq_true_eq] at hdid
    rw [List.mem_map]
    refine ⟨e, ?_, rfl⟩
    rw [List.mem_map]
    exact ⟨d, hd, by rw [if_pos hdid]⟩
  next =>
    rw [List.map_append]
    exact List.mem_append_right _ (by simp)

theorem dictUpsertAll_ids_mem_left (es : List SymbolDefinition) (x : String) :
    ∀ m, x ∈ (m.map fun d => d.symbol_id) →
      x ∈ (dictUpsertAll m es).map fun d => d.symbol_id := by
  induction es with
  | nil => intro m h; exact h
  | cons e rest ih => intro m h; exact ih _ (dictUpsert_ids_mem_left m e x h)

theorem dictUpsertAll_ids_mem_right (es : List SymbolDefinition) (x : String) :
    ∀ m, x ∈ (es.map fun d => d.symbol_id) →
      x ∈ (dictUpsertAll m es).map fun d => d.symbol_id := by
  induction es with
  | nil => intro m h; exact absurd h (by simp)
  | cons e rest ih =>
    intro m h
    rw [List.map_cons, List.mem_cons] at h
    rcases h with h | h
    · subst h
      exact dictUpsertAll_ids_mem_left rest _ _ (dictUpsert_ids_mem_self m e)
    · exact ih _ h

theorem foldl_dictUpsertAll_ids_mono (runs : List R2State) (x : String) :
    ∀ m, x ∈ (m.map fun d => d.symbol_id) →
      x ∈ ((runs.foldl (fun m r => dictUpsertAll m r.externals) m).map
        fun d => d.symbol_id) := by
  induction runs with
  | nil => intro m h; exact h
  | cons r rest ih => intro m h; exact ih _ (dictUpsertAll_ids_mem_left r.externals x m h)

theorem foldl_dictUpsertAll_ids_mem (runs : List R2State) (x : String) :
    ∀ m, (∃ r ∈ runs, x ∈ r.externals.map fun d => d.symbol_id) →
      x ∈ ((runs.foldl (fun m r => dictUpsertAll m r.externals) m).map
        fun d => d.symbol_id) := by
  induction runs with
  | nil => rintro m ⟨r, hr, -⟩; exact absurd hr (List.not_mem_nil r)
  | cons r0 rest ih =>
    rintro m ⟨r, hr, hx⟩
    rw [List.mem_cons] at hr
    rcases hr with hr | hr
    · subst hr
      exact foldl_dictUpsertAll_ids_mono rest x _
        (dictUpsertAll_ids_mem_right r.externals x m hx)
    · exact ih _ ⟨r, hr, hx⟩

theorem nodup_ids_unique (l : List SymbolDefinition)
    (h : (l.map fun d => d.symbol_id).Nodup) :
    ∀ e ∈ l, ∀ e2 ∈ l, e.symbol_id = e2.symbol_id → e = e2 := by
  induction l with
  | nil => intro e he; exact absurd he (List.not_mem_nil e)
  | cons a as ih =>
    rw [List.map_cons, List.nodup_cons] at h
    intro e he e2 he2 hid
    rw [List.mem_cons] at he he2
    rcases he with he | he <;> rcases he2 with he2 | he2
    · rw [he, he2]
    · subst he
      exact absurd (List.mem_map.mpr ⟨e2, he2, hid.symm⟩) h.1
    · subst he2
      exact absurd (List.mem_map.mpr ⟨e, he, hid⟩) h.1
    · exact ih h.2 e he e2 he2 hid

/-- C7 (amended): for every out-of-project target synthesized at some
reference site of a run, the merged external_symbols list holds exactly
one entry for that symbol_id, every reference that resolved to the target
points at that one entry's id, and within one file the first synthesis for
a target wins (a later candidate for an already-present symbol_id leaves
the state untouched); across files, however, the merge keeps the LAST
file's entry (see the counterexample). -/
theorem external_symbols_unique_and_first_synthesis_kept (projectRoot : String)
    (files : List InputFile) (t : String)
    (hsyn : ∃ f ∈ files,
      t ∈ ((collectReferences f.relPath
              ((files.map fun g => extractDefinitions g.relPath g.srcLines g.tree).foldl
                (fun acc ds => acc ++ ds) [])
              (moduleIdOfRelPath f.relPath) f.script f.tree).externals.map
            fun d => d.symbol_id)) :
    (∃ e ∈ (runExtract projectRoot files).external_symbols,
       e.symbol_id = t ∧
       (∀ e2 ∈ (runExtract projectRoot files).external_symbols,
          e2.symbol_id = t → e2 = e) ∧
       (∀ doc ∈ (runExtract projectRoot files).documents, ∀ r ∈ doc.references,
          r.target_symbol = Option.some t →
          r.target_symbol = Option.some e.symbol_id)) ∧
    (∀ (st : R2State) (targetSym : String) (j : JediName),
       (∃ d ∈ st.externals, d.symbol_id = targetSym) →
       collectExternalSymbol st targetSym j = st) ∧
    (((runExtract projectRoot files).external_symbols).map fun d => d.symbol_id).Nodup := by
  have hnodup : (((runExtract projectRoot files).external_symbols).map
      fun d => d.symbol_id).Nodup := by
    simp only [runExtract]
    exact foldl_dictUpsertAll_ids_nodup _ [] (by simp)
  have hmem : t ∈ ((runExtract projectRoot files).external_symbols.map
      fun d => d.symbol_id) := by
    obtain ⟨f, hf, hx⟩ := hsyn
    simp only [runExtract]
    refine foldl_dictUpsertAll_ids_mem _ t [] ⟨_, List.mem_map_of_mem
      (fun g => collectReferences g.relPath
        ((files.map fun g2 => extractDefinitions g2.relPath g2.srcLines g2.tree).foldl
          (fun acc ds => acc ++ ds) [])
        (moduleIdOfRelPath g.relPath) g.script g.tree) hf, hx⟩
  refine ⟨?_, ?_, hnodup⟩
  · rw [List.mem_map] at hmem
    obtain ⟨e, he, heid⟩ := hmem
    refine ⟨e, he, heid, ?_, ?_⟩
    · intro e2 he2 he2id
      exact nodup_ids_unique _ hnodup e2 he2 e he (by rw [he2id, heid])
    · intro doc hdoc r hr hrt
      rw [hrt, heid]
  · rintro st ts j ⟨d, hd, hdid⟩
    have hguard : (st.externals.any fun d => d.symbol_id = ts) = true :=
      List.any_eq_true.mpr ⟨d, hd, by simp [hdid]⟩
    rw [collectExternalSymbol, if_pos hguard]

/-- Witness for C7: unique keys on the two-file fixture, and a repeated
synthesis against the already-populated single-file state is a no-op. -/
theorem external_symbols_unique_and_first_synthesis_kept_witness :
    (((runExtract "/proj" twoFileExternalInputs).external_symbols).map
      fun d => d.symbol_id).Nodup ∧
    collectExternalSymbol extCallRun "extmod.fetch" (fetchCandidate "other") = extCallRun :=
  ⟨(external_symbols_unique_and_first_synthesis_kept "/proj" twoFileExternalInputs
      "extmod.fetch" (by decide)).2.2,
   (external_symbols_unique_and_first_synthesis_kept "/proj" twoFileExternalInputs
      "extmod.fetch" (by decide)).2.1
     extCallRun "extmod.fetch" (fetchCandidate "other") (by decide)⟩

end ContextFootprint
